import Mathlib

/-!
# MailMind workflow execution engine — verification development

A shallow embedding of `src/ai/agents/workflow_orchestration_agent.py`
(class `WorkflowOrchestrationAgent`) together with the parts of
`src/ai/agents/base_agent.py` it depends on, and proofs of the behavioural
properties of the DAG scheduler, the step executor, the template store and
the cancellation path.

Modelling conventions:
* Python `dict[str, Any]` payloads are modelled as lookup functions
  `String → Option PyVal`; `{**a, **b}` is `Dict.merge a b` (keys of `b` win).
* `datetime.utcnow()` is modelled as a monotone logical clock (a `Nat`
  threaded through the scheduler); each call yields the current instant and
  advances the clock, which preserves exactly the ordering of the real calls.
* A worker (`BaseAgent.execute_task`) is an oracle
  `AgentTask → Nat → AttemptOutcome` giving, for the task at hand, the outcome
  of each invocation attempt: a returned `AgentResult` or a raised exception.
  `execute_task` itself catches everything it runs, so inside
  `_execute_step`'s retry loop both shapes occur, and `_execute_step` is total
  — which is why `asyncio.gather(..., return_exceptions=True)` never actually
  yields an exception object into `_run_workflow`'s result-processing loop.
* `AgentResult.confidence` and `AgentResult.processing_time` are Python
  floats that the engine only stores and never branches on; they are elided.
* `uuid.uuid4()` is modelled as an externally supplied fresh identifier
  (a `String` parameter); uuid strings all have length 36.
* The scheduler's `while` loop is a step function `schedStep` driven by a
  fuel-indexed iterator `runLoop`; one fuel unit is one pass of the loop
  (including the `asyncio.sleep(0.1); continue` stall pass, which leaves the
  state unchanged).  `cancel_workflow` runs concurrently with the loop on the
  shared `Workflow` object; it is the state transformer `cancelWorkflow`,
  interleavable between passes (the loop's await points).
-/

namespace MailMind

/-- Values stored in the dynamically typed (`Any`) payload dictionaries. -/
inductive PyVal where
  | str (s : String)
  | int (n : Int)
  | bool (b : Bool)
  | pynone
deriving DecidableEq

/-- A Python `dict` keyed by strings, observed through lookup. -/
def Dict (α : Type) : Type := String → Option α

/-- `{}` -/
def Dict.empty {α : Type} : Dict α := fun _ => none

/-- `{**a, **b}`: on a key collision the value of `b` wins. -/
def Dict.merge {α : Type} (a b : Dict α) : Dict α := fun k =>
  match b k with
  | some v => some v
  | none => a k

/-- `StepStatus` (workflow_orchestration_agent.py, lines 22-27). -/
inductive StepStatus where
  | waiting
  | running
  | completed
  | failed
  | skipped
deriving DecidableEq

/-- `WorkflowStatus` (workflow_orchestration_agent.py, lines 15-20). -/
inductive WorkflowStatus where
  | pending
  | running
  | completed
  | failed
  | cancelled
deriving DecidableEq

/-- `AgentResult` (base_agent.py, lines 26-34).  `confidence` and
`processing_time` are floats the engine never branches on; elided. -/
structure AgentResult where
  success : Bool
  data : Dict PyVal
  error_message : Option String := none

/-- `WorkflowStep` (workflow_orchestration_agent.py, lines 29-46). -/
structure WorkflowStep where
  step_id : String
  agent_name : String
  task_type : String
  payload : Dict PyVal
  dependencies : List String := []
  retry_count : Nat := 3
  timeout : Nat := 300
  status : StepStatus := .waiting
  result : Option AgentResult := none
  started_at : Option Nat := none
  completed_at : Option Nat := none

/-- `Workflow` (workflow_orchestration_agent.py, lines 48-65); `created_at`
and `metadata` are recorded but never read by the engine, elided. -/
structure Workflow where
  workflow_id : String
  name : String
  description : String
  steps : List WorkflowStep
  status : WorkflowStatus := .pending

/-- `AgentTask` (base_agent.py, lines 36-48); `priority` and `created_at`
are never read by the engine, elided. -/
structure AgentTask where
  task_id : String
  task_type : String
  payload : Dict PyVal
  timeout : Nat

/-- One invocation of `agent.execute_task(task)` inside the retry loop of
`_execute_step`: either a returned `AgentResult` or a raised exception
(caught by the loop's `except Exception`). -/
inductive AttemptOutcome where
  | ok (r : AgentResult)
  | exn (msg : String)

/-- A registered agent, abstracted to the outcome of its `execute_task` for a
given task on a given (0-based) invocation attempt. -/
def Agent : Type := AgentTask → Nat → AttemptOutcome

/-- `self.agent_registry` — worker name to agent handle. -/
def Registry : Type := String → Option Agent

/-- The `AgentResult` `_execute_step` returns when
`self.agent_registry.get(step.agent_name)` is `None`
(workflow_orchestration_agent.py, lines 405-413). -/
def agentNotFound (name : String) : AgentResult :=
  { success := false, data := Dict.empty,
    error_message := some ("Agent " ++ name ++ " not found") }

/-- The `AgentResult` `_execute_step` returns once every attempt is used up
(workflow_orchestration_agent.py, lines 438-445). -/
def exhausted (total : Nat) : AgentResult :=
  { success := false, data := Dict.empty,
    error_message := some ("Step failed after " ++ toString total ++ " attempts") }

/-- The retry loop `for attempt in range(step.retry_count)` of
`_execute_step` (lines 423-445): `attempt` is the 0-based attempt index,
`rem` the number of attempts still available (`rem = total - attempt` at
every call).  Returns the `AgentResult` handed back to `_run_workflow`
together with the number of worker invocations actually made.  A returned
failure and a raised exception both fall through to the next attempt; a
successful result returns immediately. -/
def retryGo (invoke : Nat → AttemptOutcome) (total : Nat) :
    Nat → Nat → AgentResult × Nat
  | _, 0 => (exhausted total, total)
  | attempt, rem + 1 =>
    match invoke attempt with
    | .ok r => if r.success then (r, attempt + 1) else retryGo invoke total (attempt + 1) rem
    | .exn _ => retryGo invoke total (attempt + 1) rem

/-- The whole retry loop, started at attempt 0 with `total` attempts. -/
def executeRetries (invoke : Nat → AttemptOutcome) (total : Nat) : AgentResult × Nat :=
  retryGo invoke total 0 total

/-- `_execute_step` without the status/timestamp writes (those live in the
scheduler pass, below): resolve the agent, build the task, run the retry
loop.  Returns the outcome and the number of worker invocations. -/
def executeStep (registry : Registry) (wfId : String) (step : WorkflowStep) :
    AgentResult × Nat :=
  match registry step.agent_name with
  | none => (agentNotFound step.agent_name, 0)
  | some agent =>
    let task : AgentTask :=
      { task_id := wfId ++ "_" ++ step.step_id, task_type := step.task_type,
        payload := step.payload, timeout := step.timeout }
    executeRetries (agent task) step.retry_count

/-- Whether the `attempt`-th invocation reports success. -/
def succAt (invoke : Nat → AttemptOutcome) (attempt : Nat) : Bool :=
  match invoke attempt with
  | .ok r => r.success
  | .exn _ => false

/-- The error message the worker reports on the `attempt`-th invocation. -/
def errOfAttempt (invoke : Nat → AttemptOutcome) (attempt : Nat) : Option String :=
  match invoke attempt with
  | .ok r => r.error_message
  | .exn msg => some msg

/-- `_create_workflow_from_template` (workflow_orchestration_agent.py,
lines 257-282).  `workflow_id` stands for the freshly generated
`str(uuid.uuid4())`. -/
def createWorkflowFromTemplate (template : Workflow) (data : Dict PyVal)
    (workflow_id : String) : Workflow :=
  { workflow_id := workflow_id, name := template.name,
    description := template.description,
    steps := template.steps.map fun step =>
      { step_id := workflow_id ++ "_" ++ step.step_id,
        agent_name := step.agent_name, task_type := step.task_type,
        payload := Dict.merge step.payload data,
        dependencies := step.dependencies.map fun dep => workflow_id ++ "_" ++ dep,
        retry_count := step.retry_count, timeout := step.timeout } }

/-- One `step_data` dict of the `"steps"` list of an `execute_workflow` /
`create_workflow` payload.  `none` in a field is an absent key:
`step_data["step_id"]`, `["agent_name"]` and `["task_type"]` raise `KeyError`
when absent, the rest are read with `.get(..., default)`. -/
structure StepData where
  step_id : Option String := none
  agent_name : Option String := none
  task_type : Option String := none
  payload : Option (Dict PyVal) := none
  dependencies : Option (List String) := none
  retry_count : Option Nat := none
  timeout : Option Nat := none

/-- One iteration of the step-building loop of `_parse_workflow_from_payload`
(lines 295-305): required keys raise `KeyError` (surfaced to the caller by
`process_task`'s `except Exception`), the rest default. -/
def parseStep (sd : StepData) : Except String WorkflowStep :=
  match sd.step_id, sd.agent_name, sd.task_type with
  | some sid, some an, some tt =>
    .ok { step_id := sid, agent_name := an, task_type := tt,
          payload := sd.payload.getD Dict.empty,
          dependencies := sd.dependencies.getD [],
          retry_count := sd.retry_count.getD 3,
          timeout := sd.timeout.getD 300 }
  | none, _, _ => .error "KeyError: step_id"
  | some _, none, _ => .error "KeyError: agent_name"
  | some _, some _, none => .error "KeyError: task_type"

/-- The step-building loop of `_parse_workflow_from_payload` over the whole
`payload.get("steps", [])` list. -/
def parseSteps : List StepData → Except String (List WorkflowStep)
  | [] => .ok []
  | sd :: rest => do
    let st ← parseStep sd
    let sts ← parseSteps rest
    .ok (st :: sts)

/-- The payload of an `execute_workflow` task as `_execute_workflow` and
`_parse_workflow_from_payload` read it; `none` is an absent key. -/
structure ExecPayload where
  template_id : Option String := none
  workflow_data : Dict PyVal := Dict.empty
  workflow_id : Option String := none
  name : Option String := none
  description : Option String := none
  steps : List StepData := []

/-- `_parse_workflow_from_payload` (lines 284-307); `freshId` stands for the
`str(uuid.uuid4())` used when the payload carries no `"workflow_id"`. -/
def parseWorkflowFromPayload (freshId : String) (payload : ExecPayload) :
    Except String Workflow := do
  let steps ← parseSteps payload.steps
  .ok { workflow_id := payload.workflow_id.getD freshId,
        name := payload.name.getD "Custom Workflow",
        description := payload.description.getD "",
        steps := steps }

/-- The branch of `_execute_workflow` (lines 236-245) choosing between the
template store and the ad-hoc payload parse: `if template_id and template_id
in self.workflow_templates` — note a present-but-unregistered (or empty)
`template_id` falls through to `_parse_workflow_from_payload`. -/
def pickWorkflow (templates : String → Option Workflow) (freshId : String)
    (payload : ExecPayload) : Except String Workflow :=
  match payload.template_id with
  | some tid =>
    if tid = "" then parseWorkflowFromPayload freshId payload
    else
      match templates tid with
      | some tpl => .ok (createWorkflowFromTemplate tpl payload.workflow_data freshId)
      | none => parseWorkflowFromPayload freshId payload
  | none => parseWorkflowFromPayload freshId payload

/-- The mutable state the `while` loop of `_run_workflow` acts on: the
workflow's step records, the `completed_steps` set (kept as the list of its
elements in insertion order), the workflow-level fields `status`,
`started_at` and `completed_at`, the logical clock, and the total number of
worker invocations made so far (an observation, written by no source line). -/
structure SchedState where
  steps : List WorkflowStep
  completed : List String
  wstatus : WorkflowStatus
  wStartedAt : Option Nat
  wCompletedAt : Option Nat
  clock : Nat
  invocations : Nat

/-- Lines 311-319 of `_run_workflow`: register the workflow as active, set it
RUNNING, stamp `started_at`, start with an empty `completed_steps` set. -/
def initState (wf : Workflow) : SchedState :=
  { steps := wf.steps, completed := [], wstatus := .running,
    wStartedAt := some 0, wCompletedAt := none, clock := 1, invocations := 0 }

/-- The ready-set computation of one pass (lines 322-327): steps still
WAITING whose dependencies are all in `completed_steps`. -/
def readySteps (s : SchedState) : List WorkflowStep :=
  s.steps.filter fun st =>
    decide (st.status = StepStatus.waiting) &&
      st.dependencies.all fun d => decide (d ∈ s.completed)

/-- The ids of the ready steps of this pass. -/
def readyIds (s : SchedState) : List String :=
  (readySteps s).map fun st => st.step_id

/-- `set.add`: appends the id unless already present. -/
def insertId (id : String) (l : List String) : List String :=
  if id ∈ l then l else l ++ [id]

/-- The fan-out of one pass: each ready step's `_execute_step` coroutine runs
to its first await, setting `status = RUNNING` and `started_at = utcnow()`
(lines 400-401), in list order.  Returns the updated steps and the advanced
clock. -/
def launchAll (ready : List String) : List WorkflowStep → Nat → List WorkflowStep × Nat
  | [], c => ([], c)
  | st :: rest, c =>
    if st.step_id ∈ ready then
      let lp := launchAll ready rest (c + 1)
      ({ st with status := .running, started_at := some c } :: lp.1, lp.2)
    else
      let lp := launchAll ready rest c
      (st :: lp.1, lp.2)

/-- What the result-processing loop of a pass leaves behind. -/
structure RecordOut where
  steps : List WorkflowStep
  clock : Nat
  completed : List String
  invocations : Nat

/-- The result-processing loop of one pass (lines 349-362): for each ready
step, take `_execute_step`'s outcome, set COMPLETED (adding the id to
`completed_steps`) or FAILED, store the result and stamp `completed_at`. -/
def recordAll (registry : Registry) (wfId : String) (ready : List String) :
    List WorkflowStep → Nat → List String → RecordOut
  | [], c, comp => ⟨[], c, comp, 0⟩
  | st :: rest, c, comp =>
    if st.step_id ∈ ready then
      let rn := executeStep registry wfId st
      let st' : WorkflowStep :=
        { st with status := if rn.1.success then .completed else .failed,
                  result := some rn.1, completed_at := some c }
      let comp' := if rn.1.success then insertId st.step_id comp else comp
      let ro := recordAll registry wfId ready rest (c + 1) comp'
      ⟨st' :: ro.steps, ro.clock, ro.completed, rn.2 + ro.invocations⟩
    else
      let ro := recordAll registry wfId ready rest c comp
      ⟨st :: ro.steps, ro.clock, ro.completed, ro.invocations⟩

/-- The fan-out phase of one pass applied to the pass's ready set. -/
def passLp (s : SchedState) : List WorkflowStep × Nat :=
  launchAll (readyIds s) s.steps s.clock

/-- The result-processing phase of one pass, applied after the fan-out. -/
def passRo (registry : Registry) (wfId : String) (s : SchedState) : RecordOut :=
  recordAll registry wfId (readyIds s) (passLp s).1 (passLp s).2 s.completed

/-- One productive pass: compute the ready set, fan out all ready steps, wait
at the `asyncio.gather` barrier, process every result (lines 339-362). -/
def execPass (registry : Registry) (wfId : String) (s : SchedState) : SchedState :=
  { steps := (passRo registry wfId s).steps,
    completed := (passRo registry wfId s).completed, wstatus := s.wstatus,
    wStartedAt := s.wStartedAt, wCompletedAt := s.wCompletedAt,
    clock := (passRo registry wfId s).clock,
    invocations := s.invocations + (passRo registry wfId s).invocations }

/-- Whether the `while` loop takes another pass or exits with the state. -/
inductive LoopStep where
  | cont (s : SchedState)
  | exit (s : SchedState)

/-- One iteration of `while len(completed_steps) < len(workflow.steps)`
(lines 321-337): exit when the guard fails; with no ready step, `break` with
`status = FAILED` if some step is FAILED, else sleep and go round again;
otherwise run one fan-out pass. -/
def schedStep (registry : Registry) (wfId : String) (s : SchedState) : LoopStep :=
  if s.completed.length < s.steps.length then
    if (readySteps s).isEmpty then
      if s.steps.any (fun st => decide (st.status = StepStatus.failed)) then
        .exit { s with wstatus := .failed }
      else
        .cont s
    else
      .cont (execPass registry wfId s)
  else
    .exit s

/-- The loop driver: a `(state, still-in-loop)` pair; once the loop has
exited the pair is absorbing. -/
def tick (registry : Registry) (wfId : String) :
    SchedState × Bool → SchedState × Bool
  | (s, false) => (s, false)
  | (s, true) =>
    match schedStep registry wfId s with
    | .exit s' => (s', false)
    | .cont s' => (s', true)

/-- Run the loop for at most `fuel` passes; `none` when the loop has not
exited within the fuel (in particular when it never exits). -/
def runLoop (registry : Registry) (wfId : String) (fuel : Nat)
    (s0 : SchedState) : Option SchedState :=
  match (tick registry wfId)^[fuel] (s0, true) with
  | (s, false) => some s
  | (_, true) => none

/-- Lines 364-368 of `_run_workflow`, after the loop: any status other than
FAILED — RUNNING, but also a concurrently set CANCELLED — is overwritten
with COMPLETED; `completed_at` is stamped. -/
def finalizeWf (s : SchedState) : SchedState :=
  { s with wstatus := if s.wstatus = .failed then s.wstatus else .completed,
           wCompletedAt := some s.clock, clock := s.clock + 1 }

/-- `_cancel_workflow` acting on an active workflow (lines 506-509): sets
CANCELLED and stamps `completed_at`, nothing else — in particular it does not
touch the steps and the scheduling loop that consults none of this. -/
def cancelWorkflow (s : SchedState) : SchedState :=
  { s with wstatus := .cancelled, wCompletedAt := some s.clock,
           clock := s.clock + 1 }

/-- One entry of the `"steps"` list of `_run_workflow`'s result dict. -/
structure StepReport where
  step_id : String
  status : StepStatus
  result : Option AgentResult

/-- The dict `_run_workflow` returns (lines 372-384). -/
structure RunResult where
  success : Bool
  workflow_id : String
  status : WorkflowStatus
  steps : List StepReport

/-- `_run_workflow` end to end: run the loop, finalize, build the result
dict; `none` when the loop does not exit within `fuel` passes. -/
def runWorkflow (registry : Registry) (fuel : Nat) (wf : Workflow) :
    Option RunResult :=
  (runLoop registry wf.workflow_id fuel (initState wf)).map fun s0 =>
    let s := finalizeWf s0
    { success := decide (s.wstatus = WorkflowStatus.completed),
      workflow_id := wf.workflow_id, status := s.wstatus,
      steps := s.steps.map fun st => ⟨st.step_id, st.status, st.result⟩ }

/-- The `AgentResult` `process_task` hands back for an `execute_workflow`
task: success mirrors `result["success"]`, a construction-time exception is
caught and returned as a failure with its message (lines 216-223, 250-255). -/
structure ExecOutcome where
  success : Bool
  error_message : Option String
  run : Option RunResult

/-- `_execute_workflow` (lines 234-255) under `process_task`'s exception
handler: choose template instantiation or ad-hoc parse, run the workflow.
`none` when the scheduling loop does not exit within `fuel` passes. -/
def executeWorkflow (templates : String → Option Workflow) (registry : Registry)
    (freshId : String) (fuel : Nat) (payload : ExecPayload) :
    Option ExecOutcome :=
  match pickWorkflow templates freshId payload with
  | .error e => some { success := false, error_message := some e, run := none }
  | .ok wf =>
    (runWorkflow registry fuel wf).map fun r =>
      { success := r.success, error_message := none, run := some r }

/-- Look a step up by id in a scheduler state. -/
def findStep (s : SchedState) (id : String) : Option WorkflowStep :=
  s.steps.find? fun st => decide (st.step_id = id)

/-- The status of the step with the given id. -/
def statusOf (s : SchedState) (id : String) : Option StepStatus :=
  (findStep s id).map fun st => st.status

/-- The `started_at` stamp of the step with the given id. -/
def startedOf (s : SchedState) (id : String) : Option Nat :=
  (findStep s id).bind fun st => st.started_at

/-- The `completed_at` stamp of the step with the given id. -/
def completedOf (s : SchedState) (id : String) : Option Nat :=
  (findStep s id).bind fun st => st.completed_at

/-- The dependency list of the step with the given id. -/
def depsOf (s : SchedState) (id : String) : List String :=
  ((findStep s id).map fun st => st.dependencies).getD []

/-- The stored result's error message of the step with the given id. -/
def resultErrOf (s : SchedState) (id : String) : Option String :=
  match findStep s id with
  | some st =>
    match st.result with
    | some r => r.error_message
    | none => none
  | none => none

/-- The scheduler trace of a workflow: the `(state, in-loop)` pair after `n`
loop iterations. -/
def traceAt (registry : Registry) (wf : Workflow) (n : Nat) :
    SchedState × Bool :=
  (tick registry wf.workflow_id)^[n] (initState wf, true)

/-- The status of step `id` after `n` scheduler iterations. -/
def stepStatusAt (registry : Registry) (wf : Workflow) (n : Nat)
    (id : String) : Option StepStatus :=
  statusOf (traceAt registry wf n).1 id

/-- `started_at` of step `id` in the state `_run_workflow`'s loop exits with
(within `fuel` passes). -/
def runStartedAt (registry : Registry) (wf : Workflow) (fuel : Nat)
    (id : String) : Option Nat :=
  (runLoop registry wf.workflow_id fuel (initState wf)).bind fun s => startedOf s id

/-- `completed_at` of step `id` in the state the loop exits with. -/
def runCompletedAt (registry : Registry) (wf : Workflow) (fuel : Nat)
    (id : String) : Option Nat :=
  (runLoop registry wf.workflow_id fuel (initState wf)).bind fun s => completedOf s id

/-- The dependency list of step `id` in the state the loop exits with. -/
def runDepsOf (registry : Registry) (wf : Workflow) (fuel : Nat)
    (id : String) : List String :=
  ((runLoop registry wf.workflow_id fuel (initState wf)).map fun s => depsOf s id).getD []

/-- How many steps are still WAITING. -/
def countWaiting (s : SchedState) : Nat :=
  (s.steps.filter fun st => decide (st.status = StepStatus.waiting)).length

/-- A step of a fresh workflow definition, before any scheduling. -/
def StepInit (st : WorkflowStep) : Prop :=
  st.status = .waiting ∧ st.started_at = none ∧ st.completed_at = none

/-- Step `b` of the list names `a` among its dependencies. -/
def DirectDep (steps : List WorkflowStep) (b a : String) : Prop :=
  ∃ st, st ∈ steps ∧ st.step_id = b ∧ a ∈ st.dependencies

/-- `b` depends on `a` directly or transitively. -/
inductive DepChain (steps : List WorkflowStep) : String → String → Prop where
  | base {b a : String} : DirectDep steps b a → DepChain steps b a
  | cons {b c a : String} : DirectDep steps b c → DepChain steps c a → DepChain steps b a

/-- The fields a pass writes on a ready step, given the start and completion
instants it draws from the clock. -/
def recordedStep (registry : Registry) (wfId : String) (st : WorkflowStep)
    (tS tC : Nat) : WorkflowStep :=
  { st with
    status := if (executeStep registry wfId st).1.success then .completed else .failed,
    result := some (executeStep registry wfId st).1,
    started_at := some tS, completed_at := some tC }

/-- How one pass relates a step to its updated copy: untouched unless ready;
a ready step was WAITING with every dependency completed, and is rewritten to
`recordedStep` with fresh instants inside the pass's clock window. -/
def PassStepRel (registry : Registry) (wfId : String) (s : SchedState)
    (c' : Nat) (st st' : WorkflowStep) : Prop :=
  (st.step_id ∉ readyIds s → st' = st) ∧
  (st.step_id ∈ readyIds s →
    st.status = .waiting ∧ (∀ d ∈ st.dependencies, d ∈ s.completed) ∧
    ∃ tS tC, s.clock ≤ tS ∧ tS < tC ∧ tC < c' ∧
      st' = recordedStep registry wfId st tS tC)

/-- The parts of a step record the scheduler never writes: its identity and
its dependency list. -/
def SkelRel (a b : WorkflowStep) : Prop :=
  b.step_id = a.step_id ∧ b.dependencies = a.dependencies

/-- How the fan-out phase relates a step to its updated copy. -/
def LaunchRel (ready : List String) (c c' : Nat) (st st' : WorkflowStep) : Prop :=
  (st.step_id ∉ ready → st' = st) ∧
  (st.step_id ∈ ready → ∃ t, c ≤ t ∧ t < c' ∧
    st' = { st with status := .running, started_at := some t })

/-- How the result-processing phase relates a step to its updated copy. -/
def RecordRel (registry : Registry) (wfId : String) (ready : List String)
    (c c' : Nat) (st st' : WorkflowStep) : Prop :=
  (st.step_id ∉ ready → st' = st) ∧
  (st.step_id ∈ ready → ∃ t, c ≤ t ∧ t < c' ∧
    st' = { st with
      status := if (executeStep registry wfId st).1.success then .completed else .failed,
      result := some (executeStep registry wfId st).1,
      completed_at := some t })

/-- The invariants of the scheduler state that hold between passes. -/
structure SInv (s : SchedState) : Prop where
  nodup : (s.steps.map fun st => st.step_id).Nodup
  comp_nodup : s.completed.Nodup
  comp_mem : ∀ id ∈ s.completed,
    ∃ st, st ∈ s.steps ∧ st.step_id = id ∧ st.status = .completed
  comp_of_status : ∀ st, st ∈ s.steps → st.status = .completed →
    st.step_id ∈ s.completed
  started_lt : ∀ st, st ∈ s.steps → ∀ t, st.started_at = some t → t < s.clock
  completed_lt : ∀ st, st ∈ s.steps → ∀ t, st.completed_at = some t → t < s.clock
  waiting_none : ∀ st, st ∈ s.steps → st.status = .waiting → st.completed_at = none
  terminal_ts : ∀ st, st ∈ s.steps → st.status = .completed →
    ∃ t, st.completed_at = some t
  dep_ts : ∀ st, st ∈ s.steps → ∀ tS, st.started_at = some tS →
    ∀ d ∈ st.dependencies, ∃ dst, dst ∈ s.steps ∧ dst.step_id = d ∧
      ∃ tC, dst.completed_at = some tC ∧ tC ≤ tS

/-! ### Concrete instances used to exercise the theorems -/

/-- A worker reply reporting success. -/
def okResult : AgentResult := { success := true, data := Dict.empty }

/-- A worker reply reporting failure with message `"boom"`. -/
def failBoom : AgentResult :=
  { success := false, data := Dict.empty, error_message := some "boom" }

/-- An agent whose every invocation succeeds. -/
def agOk : Agent := fun _ _ => .ok okResult

/-- An agent whose every invocation fails with `"boom"`. -/
def agFail : Agent := fun _ _ => .ok failBoom

/-- Single-step workflow for the cancellation scenario. -/
def stepC1 : WorkflowStep :=
  { step_id := "a", agent_name := "ag", task_type := "t", payload := Dict.empty }

/-- The workflow whose `cancel_workflow` arrives just after its run starts. -/
def wfC1 : Workflow :=
  { workflow_id := "w1", name := "n", description := "", steps := [stepC1] }

/-- Registry with the one succeeding agent `"ag"`. -/
def regC1 : Registry := fun n => if n = "ag" then some agOk else none

/-- A step definition depending on itself. -/
def cyclicStepData : StepData :=
  { step_id := some "a", agent_name := some "ag", task_type := some "t",
    dependencies := some ["a"] }

/-- An `execute_workflow` payload whose one step depends on itself. -/
def cyclicPayload : ExecPayload :=
  { workflow_id := some "cyc", steps := [cyclicStepData] }

/-- The workflow `_parse_workflow_from_payload` builds from `cyclicPayload`. -/
def cycStep : WorkflowStep :=
  { step_id := "a", agent_name := "ag", task_type := "t",
    payload := Dict.empty, dependencies := ["a"] }

/-- The parsed cyclic workflow. -/
def wfCyc : Workflow :=
  { workflow_id := "cyc", name := "Custom Workflow", description := "",
    steps := [cycStep] }

/-- A step whose agent always fails. -/
def stepA3 : WorkflowStep :=
  { step_id := "a", agent_name := "bad", task_type := "t", payload := Dict.empty }

/-- A step depending on `stepA3`. -/
def stepB3 : WorkflowStep :=
  { step_id := "b", agent_name := "ag", task_type := "t", payload := Dict.empty,
    dependencies := ["a"] }

/-- Workflow in which `b` depends on the failing `a`. -/
def wfC3 : Workflow :=
  { workflow_id := "w3", name := "n", description := "", steps := [stepA3, stepB3] }

/-- Registry with failing `"bad"` and succeeding `"ag"`. -/
def regC3 : Registry := fun n =>
  if n = "bad" then some agFail else if n = "ag" then some agOk else none

/-- Attempts that fail once and then succeed. -/
def invC4 : Nat → AttemptOutcome := fun i =>
  if i = 0 then .ok failBoom else .ok okResult

/-- A step naming a worker that is never registered. -/
def stepC5 : WorkflowStep :=
  { step_id := "g", agent_name := "ghost", task_type := "t", payload := Dict.empty }

/-- Workflow with the unregistered worker's step. -/
def wfC5 : Workflow :=
  { workflow_id := "w5", name := "n", description := "", steps := [stepC5] }

/-- The empty registry. -/
def regNone : Registry := fun _ => none

/-- Attempts that every time fail with `"boom"`. -/
def invC6 : Nat → AttemptOutcome := fun _ => .ok failBoom

/-- A template step carrying a payload key the input data also sets. -/
def tplStep7 : WorkflowStep :=
  { step_id := "s", agent_name := "ag", task_type := "t",
    payload := fun k =>
      if k = "email" then some (.str "tpl") else
      if k = "keep" then some (.int 1) else none,
    dependencies := ["s"] }

/-- A one-step template. -/
def tplC7 : Workflow :=
  { workflow_id := "tpl7", name := "T", description := "d", steps := [tplStep7] }

/-- Input data overriding the template's `"email"` key. -/
def dataC7 : Dict PyVal := fun k =>
  if k = "email" then some (.str "input") else none

/-- An `execute_workflow` payload naming a template id that was never
registered, with no ad-hoc step list. -/
def payloadC8 : ExecPayload := { template_id := some "missing" }

/-- First step of a two-step chain, no dependencies. -/
def stepA9 : WorkflowStep :=
  { step_id := "a", agent_name := "ag", task_type := "t", payload := Dict.empty }

/-- Second step of the chain, depending on the first. -/
def stepB9 : WorkflowStep :=
  { step_id := "b", agent_name := "ag", task_type := "t", payload := Dict.empty,
    dependencies := ["a"] }

/-- The linear-chain workflow `a → b`. -/
def wfC9 : Workflow :=
  { workflow_id := "w9", name := "n", description := "", steps := [stepA9, stepB9] }

/-- A workflow with no steps at all. -/
def wfC10 : Workflow :=
  { workflow_id := "w10", name := "n", description := "", steps := [] }

/-! ### The retry loop -/

lemma retryGo_all_fail (invoke : Nat → AttemptOutcome) (total : Nat) :
    ∀ rem attempt, (∀ j, attempt ≤ j → j < attempt + rem → succAt invoke j = false) →
    retryGo invoke total attempt rem = (exhausted total, total) := by
  intro rem
  induction rem with
  | zero => intro attempt _; rfl
  | succ rem ih =>
    intro attempt h
    have h0 : succAt invoke attempt = false := h attempt le_rfl (by omega)
    unfold succAt at h0
    cases hi : invoke attempt with
    | ok r =>
      rw [hi] at h0
      replace h0 : r.success = false := h0
      simp only [retryGo, hi]
      rw [if_neg (by simp [h0])]
      exact ih (attempt + 1) fun j hj1 hj2 => h j (by omega) (by omega)
    | exn m =>
      simp only [retryGo, hi]
      exact ih (attempt + 1) fun j hj1 hj2 => h j (by omega) (by omega)

lemma retryGo_first_success (invoke : Nat → AttemptOutcome) (total : Nat) :
    ∀ rem attempt k res, attempt ≤ k → k < attempt + rem →
    invoke k = .ok res → res.success = true →
    (∀ j, attempt ≤ j → j < k → succAt invoke j = false) →
    retryGo invoke total attempt rem = (res, k + 1) := by
  intro rem
  induction rem with
  | zero => intro attempt k res h1 h2 _ _ _; omega
  | succ rem ih =>
    intro attempt k res hak hk hinv hs hprev
    rcases Nat.eq_or_lt_of_le hak with heq | hlt
    · subst heq
      simp only [retryGo, hinv, hs, if_true]
    · have h0 : succAt invoke attempt = false := hprev attempt le_rfl hlt
      unfold succAt at h0
      cases hi : invoke attempt with
      | ok r0 =>
        rw [hi] at h0
        replace h0 : r0.success = false := h0
        simp only [retryGo, hi]
        rw [if_neg (by simp [h0])]
        exact ih (attempt + 1) k res hlt (by omega) hinv hs
          fun j hj1 hj2 => hprev j (by omega) hj2
      | exn m =>
        simp only [retryGo, hi]
        exact ih (attempt + 1) k res hlt (by omega) hinv hs
          fun j hj1 hj2 => hprev j (by omega) hj2

lemma retryGo_count_le (invoke : Nat → AttemptOutcome) (total : Nat) :
    ∀ rem attempt, attempt + rem ≤ total →
    (retryGo invoke total attempt rem).2 ≤ total := by
  intro rem
  induction rem with
  | zero => intro attempt _; exact le_rfl
  | succ rem ih =>
    intro attempt h
    cases hi : invoke attempt with
    | ok r =>
      by_cases hs : r.success
      · simp only [retryGo, hi, hs, if_true]; omega
      · simp only [retryGo, hi, hs, Bool.false_eq_true, if_false]
        exact ih (attempt + 1) (by omega)
    | exn m =>
      simp only [retryGo, hi]
      exact ih (attempt + 1) (by omega)

/-- C4: with retry limit `r ≥ 1`, the worker is invoked at most `r` times;
when the first success occurs at (0-based) attempt `k`, the invocation count
is `min (k+1) r` and, if `k < r`, that successful result is returned
immediately; with no success among the first `r` attempts, exactly `r`
invocations are made. -/
theorem retry_bound_and_first_success (invoke : Nat → AttemptOutcome) (r : Nat)
    (_hr : 1 ≤ r) :
    (executeRetries invoke r).2 ≤ r ∧
    (∀ k res, invoke k = .ok res → res.success = true →
      (∀ j, j < k → succAt invoke j = false) →
      (executeRetries invoke r).2 = min (k + 1) r ∧
      (k < r → executeRetries invoke r = (res, k + 1))) ∧
    ((∀ j, j < r → succAt invoke j = false) →
      executeRetries invoke r = (exhausted r, r)) := by
  refine ⟨retryGo_count_le invoke r r 0 (by omega), ?_, ?_⟩
  · intro k res hinv hs hprev
    by_cases hkr : k < r
    · have hrun : executeRetries invoke r = (res, k + 1) :=
        retryGo_first_success invoke r r 0 k res (Nat.zero_le k) (by omega) hinv hs
          fun j _ hj2 => hprev j hj2
      refine ⟨?_, fun _ => hrun⟩
      rw [hrun]
      omega
    · have hall : ∀ j, 0 ≤ j → j < 0 + r → succAt invoke j = false :=
        fun j _ hj => hprev j (by omega)
      have hrun : executeRetries invoke r = (exhausted r, r) :=
        retryGo_all_fail invoke r r 0 hall
      refine ⟨?_, fun hk => absurd hk hkr⟩
      rw [hrun]
      simp only
      omega
  · intro hfail
    exact retryGo_all_fail invoke r r 0 fun j _ hj => hfail j (by omega)

theorem retry_bound_witness :
    (executeRetries invC4 3).2 ≤ 3 ∧
    (executeRetries invC4 3).2 = min 2 3 ∧
    executeRetries invC4 3 = (okResult, 2) := by
  have h := retry_bound_and_first_success invC4 3 (by omega)
  have h1 := h.2.1 1 okResult rfl rfl (by decide)
  exact ⟨h.1, h1.1, h1.2 (by omega)⟩

/-- C6 (counterexample): a worker failing every attempt with `"boom"` and
retry limit 3 yields a returned outcome whose error message is the generic
`"Step failed after 3 attempts"` — the worker's last reported message
(`"boom"`) appears nowhere in it, contradicting "the error message is the
last error message reported by the worker, tagged with the attempt count". -/
theorem exhausted_retries_drops_worker_error :
    errOfAttempt invC6 2 = some "boom" ∧
    (executeRetries invC6 3).1.success = false ∧
    (executeRetries invC6 3).1.error_message = some "Step failed after 3 attempts" ∧
    ¬ List.IsInfix "boom".data "Step failed after 3 attempts".data := by
  exact ⟨rfl, rfl, rfl, by decide⟩

/-- C6 (amended): when every one of the `retry_count` attempts fails, the
step executor returns `success = false` with the generic message
`"Step failed after {retry_count} attempts"` (carrying the attempt count
only); the worker's last error message is not part of the returned outcome. -/
theorem exhausted_retries_generic_message (invoke : Nat → AttemptOutcome)
    (total : Nat) (hfail : ∀ j, j < total → succAt invoke j = false) :
    executeRetries invoke total = (exhausted total, total) ∧
    (exhausted total).success = false ∧
    (exhausted total).error_message =
      some ("Step failed after " ++ toString total ++ " attempts") := by
  exact ⟨retryGo_all_fail invoke total total 0 fun j _ hj => hfail j (by omega),
    rfl, rfl⟩

theorem exhausted_retries_generic_message_witness :
    executeRetries invC6 3 = (exhausted 3, 3) ∧
    (exhausted 3).success = false ∧
    (exhausted 3).error_message = some ("Step failed after " ++ toString 3 ++ " attempts") :=
  exhausted_retries_generic_message invC6 3 (by decide)

/-! ### Template instantiation -/

lemma string_data_inj {s t : String} (h : s.data = t.data) : s = t := by
  cases s
  cases t
  exact congrArg String.mk h

lemma prefixed_inj {w1 w2 a b : String} (hlen : w1.length = w2.length)
    (h : w1 ++ "_" ++ a = w2 ++ "_" ++ b) : w1 = w2 ∧ a = b := by
  have hd : (w1.data ++ "_".data) ++ a.data = (w2.data ++ "_".data) ++ b.data := by
    have := congrArg String.data h
    simpa [String.data_append] using this
  have hlen' : (w1.data ++ "_".data).length = (w2.data ++ "_".data).length := by
    have l1 : w1.data.length = w1.length := rfl
    have l2 : w2.data.length = w2.length := rfl
    simp [List.length_append, l1, l2, hlen]
  obtain ⟨h1, h2⟩ := List.append_inj hd hlen'
  have h1' := (List.append_inj h1 hlen).1
  exact ⟨string_data_inj h1', string_data_inj h2⟩

/-- C7: instantiating a template with input data under fresh workflow id
`wid1` yields that workflow id; every step is rewritten to the
`"{workflow_id}_{original_step_id}"` form with its dependencies prefixed the
same way and its payload the template payload merged with the input data,
the input data winning on key collision; a second instantiation under a
distinct fresh id of the same length (uuid strings share a length) yields a
distinct workflow id and step ids disjoint from the first's. -/
theorem template_instantiation_spec (template : Workflow) (data : Dict PyVal)
    (wid1 wid2 : String) (hlen : wid1.length = wid2.length) (hne : wid1 ≠ wid2) :
    (createWorkflowFromTemplate template data wid1).workflow_id = wid1 ∧
    List.Forall₂ (fun st st' : WorkflowStep =>
        st'.step_id = wid1 ++ "_" ++ st.step_id ∧
        st'.dependencies = st.dependencies.map (fun d => wid1 ++ "_" ++ d) ∧
        st'.status = StepStatus.waiting ∧
        (∀ k v, data k = some v → st'.payload k = some v) ∧
        (∀ k, data k = none → st'.payload k = st.payload k))
      template.steps (createWorkflowFromTemplate template data wid1).steps ∧
    (createWorkflowFromTemplate template data wid1).workflow_id ≠
      (createWorkflowFromTemplate template data wid2).workflow_id ∧
    (∀ id1 ∈ (createWorkflowFromTemplate template data wid1).steps.map
        (fun st => st.step_id),
     ∀ id2 ∈ (createWorkflowFromTemplate template data wid2).steps.map
        (fun st => st.step_id), id1 ≠ id2) := by
  refine ⟨rfl, ?_, hne, ?_⟩
  · show List.Forall₂ _ template.steps (template.steps.map _)
    rw [List.forall₂_map_right_iff]
    rw [List.forall₂_same]
    intro st _
    refine ⟨rfl, rfl, rfl, ?_, ?_⟩
    · intro k v hk
      show Dict.merge st.payload data k = some v
      unfold Dict.merge
      rw [hk]
    · intro k hk
      show Dict.merge st.payload data k = st.payload k
      unfold Dict.merge
      rw [hk]
  · intro id1 h1 id2 h2
    simp only [createWorkflowFromTemplate, List.map_map, List.mem_map] at h1 h2
    obtain ⟨s1, _, hs1⟩ := h1
    obtain ⟨s2, _, hs2⟩ := h2
    intro heq
    rw [← hs1, ← hs2] at heq
    exact hne (prefixed_inj hlen heq).1

theorem template_instantiation_witness :
    (createWorkflowFromTemplate tplC7 dataC7 "aaa").workflow_id = "aaa" ∧
    List.Forall₂ (fun st st' : WorkflowStep =>
        st'.step_id = "aaa" ++ "_" ++ st.step_id ∧
        st'.dependencies = st.dependencies.map (fun d => "aaa" ++ "_" ++ d) ∧
        st'.status = StepStatus.waiting ∧
        (∀ k v, dataC7 k = some v → st'.payload k = some v) ∧
        (∀ k, dataC7 k = none → st'.payload k = st.payload k))
      tplC7.steps (createWorkflowFromTemplate tplC7 dataC7 "aaa").steps ∧
    (createWorkflowFromTemplate tplC7 dataC7 "aaa").workflow_id ≠
      (createWorkflowFromTemplate tplC7 dataC7 "bbb").workflow_id ∧
    (∀ id1 ∈ (createWorkflowFromTemplate tplC7 dataC7 "aaa").steps.map
        (fun st => st.step_id),
     ∀ id2 ∈ (createWorkflowFromTemplate tplC7 dataC7 "bbb").steps.map
        (fun st => st.step_id), id1 ≠ id2) :=
  template_instantiation_spec tplC7 dataC7 "aaa" "bbb" (by decide) (by decide)

/-! ### Empty workflows, unknown templates, cancellation, cycles -/

lemma tick_absorb (registry : Registry) (wfId : String) (s : SchedState) (n : Nat) :
    (tick registry wfId)^[n] (s, false) = (s, false) :=
  Function.iterate_fixed rfl n

lemma runWorkflow_nil (registry : Registry) (fuel : Nat) (wf : Workflow)
    (hsteps : wf.steps = []) (hfuel : 1 ≤ fuel) :
    runLoop registry wf.workflow_id fuel (initState wf) = some (initState wf) ∧
    runWorkflow registry fuel wf =
      some { success := true, workflow_id := wf.workflow_id,
             status := WorkflowStatus.completed, steps := [] } := by
  obtain ⟨m, rfl⟩ : ∃ m, fuel = m + 1 := ⟨fuel - 1, by omega⟩
  have hg : ¬((initState wf).completed.length < (initState wf).steps.length) := by
    simp [initState, hsteps]
  have h1 : tick registry wf.workflow_id (initState wf, true) = (initState wf, false) := by
    simp [tick, schedStep, hg]
  have hrl : runLoop registry wf.workflow_id (m + 1) (initState wf) =
      some (initState wf) := by
    unfold runLoop
    rw [Function.iterate_succ_apply, h1, tick_absorb]
  refine ⟨hrl, ?_⟩
  unfold runWorkflow
  rw [hrl]
  have hw : (finalizeWf (initState wf)).wstatus = WorkflowStatus.completed := rfl
  have hst : (finalizeWf (initState wf)).steps = wf.steps := rfl
  simp [hw, hst, hsteps]

/-- C10: executing a workflow whose step list is empty exits the scheduling
loop on its first pass with no worker invocation; the workflow finishes
COMPLETED and the returned result has `success = true` and an empty `steps`
array. -/
theorem empty_workflow_completes (registry : Registry) (wf : Workflow)
    (fuel : Nat) (hsteps : wf.steps = []) (hfuel : 1 ≤ fuel) :
    runWorkflow registry fuel wf =
      some { success := true, workflow_id := wf.workflow_id,
             status := WorkflowStatus.completed, steps := [] } ∧
    ((runLoop registry wf.workflow_id fuel (initState wf)).map
        fun s => s.invocations) = some 0 := by
  obtain ⟨h1, h2⟩ := runWorkflow_nil registry fuel wf hsteps hfuel
  exact ⟨h2, by rw [h1]; rfl⟩

theorem empty_workflow_completes_witness :
    runWorkflow regNone 1 wfC10 =
      some { success := true, workflow_id := wfC10.workflow_id,
             status := WorkflowStatus.completed, steps := [] } ∧
    ((runLoop regNone wfC10.workflow_id 1 (initState wfC10)).map
        fun s => s.invocations) = some 0 :=
  empty_workflow_completes regNone wfC10 1 rfl (by omega)

/-- C1 fails on the code: `_cancel_workflow` sets CANCELLED on the shared
`Workflow`, but `_run_workflow`'s loop never consults `workflow.status` — the
very next scheduling pass still launches step `"a"` (WAITING at the instant
of cancellation, COMPLETED with `started_at = 2 > 1`, the cancellation
instant, afterwards) — and the finalization `if status != FAILED: status =
COMPLETED` then overwrites CANCELLED with COMPLETED. -/
theorem cancelled_workflow_still_schedules_and_completes :
    (cancelWorkflow (initState wfC1)).wstatus = WorkflowStatus.cancelled ∧
    (cancelWorkflow (initState wfC1)).wCompletedAt = some 1 ∧
    statusOf (cancelWorkflow (initState wfC1)) "a" = some StepStatus.waiting ∧
    ((runLoop regC1 "w1" 2 (cancelWorkflow (initState wfC1))).map fun s =>
        ((finalizeWf s).wstatus, s.wstatus, statusOf s "a", startedOf s "a")) =
      some (WorkflowStatus.completed, WorkflowStatus.cancelled,
        some StepStatus.completed, some 2) :=
  ⟨rfl, rfl, rfl, rfl⟩

/-- C2 (counterexample): `_parse_workflow_from_payload` performs no cycle
check — a payload whose single step `"a"` depends on itself is accepted, and
the built workflow carries the self-dependency; no error is reported to the
caller. -/
theorem cyclic_payload_accepted_by_construction :
    ((parseWorkflowFromPayload "fresh" cyclicPayload).toOption.map fun wf =>
        (wf.workflow_id, wf.steps.map fun st => (st.step_id, st.dependencies))) =
      some ("cyc", [("a", ["a"])]) := rfl

/-- C2 (amended): construction accepts the cyclic definition, the workflow
reaches the scheduler, and there the loop never exits: with the cycle never
ready and no step failed, every pass leaves the state unchanged, so the step
stays WAITING forever and `runLoop` yields `none` at every fuel — executing
the cyclic payload end to end likewise never returns. -/
theorem cyclic_workflow_reaches_scheduler_and_diverges
    (templates : String → Option Workflow) (registry : Registry)
    (wfId : String) (fuel : Nat) :
    runLoop registry wfId fuel (initState wfCyc) = none ∧
    statusOf ((tick registry wfId)^[fuel] (initState wfCyc, true)).1 "a" =
      some StepStatus.waiting ∧
    executeWorkflow templates registry "cyc" fuel cyclicPayload = none := by
  have hiter : ∀ (r : Registry) (w : String),
      (tick r w)^[fuel] (initState wfCyc, true) = (initState wfCyc, true) :=
    fun r w => Function.iterate_fixed rfl fuel
  refine ⟨?_, ?_, ?_⟩
  · unfold runLoop
    rw [hiter]
  · rw [hiter]
    rfl
  · have hpick : pickWorkflow templates "cyc" cyclicPayload = .ok wfCyc := rfl
    have hrl : runLoop registry wfCyc.workflow_id fuel (initState wfCyc) = none := by
      unfold runLoop
      rw [hiter]
    have hrw : runWorkflow registry fuel wfCyc = none := by
      unfold runWorkflow
      rw [hrl]
      rfl
    unfold executeWorkflow
    rw [hpick]
    show Option.map (fun r => (⟨r.success, none, some r⟩ : ExecOutcome))
        (runWorkflow registry fuel wfCyc) = none
    rw [hrw]
    rfl

theorem cyclic_workflow_diverges_witness :
    runLoop regNone "cyc" 5 (initState wfCyc) = none ∧
    statusOf ((tick regNone "cyc")^[5] (initState wfCyc, true)).1 "a" =
      some StepStatus.waiting ∧
    executeWorkflow (fun _ => none) regNone "cyc" 5 cyclicPayload = none :=
  cyclic_workflow_reaches_scheduler_and_diverges (fun _ => none) regNone "cyc" 5

/-- C8 (counterexample): executing with a template id that was never
registered does not return a NotFound error — the payload (with no step
list) is parsed as an ad-hoc workflow and executed, returning
`success = true` with no error message. -/
theorem unknown_template_executes_successfully :
    executeWorkflow (fun _ => none) regNone "fresh8" 1 payloadC8 =
      some { success := true, error_message := none,
             run := some { success := true, workflow_id := "fresh8",
                           status := WorkflowStatus.completed, steps := [] } } := rfl

/-- C8 (amended): a present-but-unregistered template id is not detected —
`_execute_workflow` falls through to `_parse_workflow_from_payload` and
behaves exactly as the ad-hoc path on the same payload; in particular, with
no `"steps"` in the payload the empty parsed workflow executes successfully
(`success = true`, no error) instead of any NotFound report. -/
theorem unknown_template_falls_through_to_adhoc
    (templates : String → Option Workflow) (registry : Registry)
    (freshId : String) (fuel : Nat) (payload : ExecPayload) (tid : String)
    (htid : payload.template_id = some tid) (hmiss : templates tid = none) :
    executeWorkflow templates registry freshId fuel payload =
      (match parseWorkflowFromPayload freshId payload with
       | .error e => some { success := false, error_message := some e, run := none }
       | .ok wf => (runWorkflow registry fuel wf).map fun r =>
           { success := r.success, error_message := none, run := some r }) ∧
    (payload.steps = [] → 1 ≤ fuel →
      executeWorkflow templates registry freshId fuel payload =
        some { success := true, error_message := none,
               run := some { success := true,
                             workflow_id := payload.workflow_id.getD freshId,
                             status := WorkflowStatus.completed, steps := [] } }) := by
  have hpick : pickWorkflow templates freshId payload =
      parseWorkflowFromPayload freshId payload := by
    unfold pickWorkflow
    rw [htid]
    show (if tid = "" then parseWorkflowFromPayload freshId payload
          else match templates tid with
            | some tpl => Except.ok (createWorkflowFromTemplate tpl payload.workflow_data freshId)
            | none => parseWorkflowFromPayload freshId payload) =
        parseWorkflowFromPayload freshId payload
    by_cases h0 : tid = ""
    · rw [if_pos h0]
    · rw [if_neg h0, hmiss]
  have hmain : executeWorkflow templates registry freshId fuel payload =
      (match parseWorkflowFromPayload freshId payload with
       | .error e => some { success := false, error_message := some e, run := none }
       | .ok wf => (runWorkflow registry fuel wf).map fun r =>
           { success := r.success, error_message := none, run := some r }) := by
    unfold executeWorkflow
    rw [hpick]
  refine ⟨hmain, ?_⟩
  intro hsteps hfuel
  have hparse : parseWorkflowFromPayload freshId payload =
      .ok { workflow_id := payload.workflow_id.getD freshId,
            name := payload.name.getD "Custom Workflow",
            description := payload.description.getD "",
            steps := [] } := by
    unfold parseWorkflowFromPayload
    rw [hsteps]
    rfl
  obtain ⟨_, h2⟩ := runWorkflow_nil registry fuel
    { workflow_id := payload.workflow_id.getD freshId,
      name := payload.name.getD "Custom Workflow",
      description := payload.description.getD "",
      steps := [] } rfl hfuel
  have hfin2 : Option.map (fun r => (⟨r.success, none, some r⟩ : ExecOutcome))
      (runWorkflow registry fuel
        { workflow_id := payload.workflow_id.getD freshId,
          name := payload.name.getD "Custom Workflow",
          description := payload.description.getD "",
          steps := [] }) =
      some { success := true, error_message := none,
             run := some { success := true,
                           workflow_id := payload.workflow_id.getD freshId,
                           status := WorkflowStatus.completed, steps := [] } } := by
    rw [h2]
    rfl
  rw [hmain, hparse]
  exact hfin2

theorem unknown_template_falls_through_witness :
    executeWorkflow (fun _ => none) regNone "fresh8" 1 payloadC8 =
      (match parseWorkflowFromPayload "fresh8" payloadC8 with
       | .error e => some { success := false, error_message := some e, run := none }
       | .ok wf => (runWorkflow regNone 1 wf).map fun r =>
           { success := r.success, error_message := none, run := some r }) ∧
    (payloadC8.steps = [] → 1 ≤ 1 →
      executeWorkflow (fun _ => none) regNone "fresh8" 1 payloadC8 =
        some { success := true, error_message := none,
               run := some { success := true,
                             workflow_id := payloadC8.workflow_id.getD "fresh8",
                             status := WorkflowStatus.completed, steps := [] } }) :=
  unknown_template_falls_through_to_adhoc (fun _ => none) regNone "fresh8" 1
    payloadC8 "missing" rfl rfl

/-! ### List machinery for the scheduler proofs -/

lemma forall₂_compose {α β γ : Type} {R : α → β → Prop} {S : β → γ → Prop}
    {T : α → γ → Prop} (h : ∀ a b c, R a b → S b c → T a c) :
    ∀ {l₁ : List α} {l₂ : List β} {l₃ : List γ},
    List.Forall₂ R l₁ l₂ → List.Forall₂ S l₂ l₃ → List.Forall₂ T l₁ l₃ := by
  intro l₁ l₂ l₃ h12
  induction h12 generalizing l₃ with
  | nil =>
    intro h23
    cases h23
    exact .nil
  | cons hab _ ih =>
    intro h23
    cases h23 with
    | cons hbc h23' => exact .cons (h _ _ _ hab hbc) (ih h23')

lemma forall₂_imp_mem {α β : Type} {R R' : α → β → Prop} :
    ∀ {l₁ : List α} {l₂ : List β}, List.Forall₂ R l₁ l₂ →
    (∀ a b, a ∈ l₁ → R a b → R' a b) → List.Forall₂ R' l₁ l₂ := by
  intro l₁ l₂ h
  induction h with
  | nil => intro _; exact .nil
  | cons hab _ ih =>
    intro hstr
    exact .cons (hstr _ _ (List.mem_cons_self _ _) hab)
      (ih fun a b ha hab' => hstr a b (List.mem_cons_of_mem _ ha) hab')

lemma forall₂_mem_left {α β : Type} {R : α → β → Prop} :
    ∀ {l₁ : List α} {l₂ : List β}, List.Forall₂ R l₁ l₂ →
    ∀ {a}, a ∈ l₁ → ∃ b, b ∈ l₂ ∧ R a b := by
  intro l₁ l₂ h
  induction h with
  | nil => intro a ha; cases ha
  | cons hab _ ih =>
    intro a ha
    rcases List.mem_cons.mp ha with rfl | ha'
    · exact ⟨_, List.mem_cons_self _ _, hab⟩
    · obtain ⟨b, hb, hr⟩ := ih ha'
      exact ⟨b, List.mem_cons_of_mem _ hb, hr⟩

lemma forall₂_mem_right {α β : Type} {R : α → β → Prop} :
    ∀ {l₁ : List α} {l₂ : List β}, List.Forall₂ R l₁ l₂ →
    ∀ {b}, b ∈ l₂ → ∃ a, a ∈ l₁ ∧ R a b := by
  intro l₁ l₂ h
  induction h with
  | nil => intro b hb; cases hb
  | cons hab _ ih =>
    intro b hb
    rcases List.mem_cons.mp hb with rfl | hb'
    · exact ⟨_, List.mem_cons_self _ _, hab⟩
    · obtain ⟨a, ha, hr⟩ := ih hb'
      exact ⟨a, List.mem_cons_of_mem _ ha, hr⟩

lemma find?_forall₂ {R : WorkflowStep → WorkflowStep → Prop}
    (hid : ∀ a b, R a b → b.step_id = a.step_id) :
    ∀ {l l' : List WorkflowStep}, List.Forall₂ R l l' → ∀ id,
    ((l.find? fun st => decide (st.step_id = id)) = none ∧
     (l'.find? fun st => decide (st.step_id = id)) = none) ∨
    (∃ a b, (l.find? fun st => decide (st.step_id = id)) = some a ∧
      (l'.find? fun st => decide (st.step_id = id)) = some b ∧ R a b) := by
  intro l l' h
  induction h with
  | nil => intro id; exact Or.inl ⟨rfl, rfl⟩
  | @cons a b l₁ l₂ hab _ ih =>
    intro id
    by_cases hpa : a.step_id = id
    · refine Or.inr ⟨a, b, ?_, ?_, hab⟩
      · exact List.find?_cons_of_pos _ (by simp [hpa])
      · exact List.find?_cons_of_pos _ (by simp [hid a b hab, hpa])
    · have h1 : (List.find? (fun st => decide (st.step_id = id)) (a :: l₁)) =
          List.find? (fun st => decide (st.step_id = id)) l₁ :=
        List.find?_cons_of_neg _ (by simp [hpa])
      have h2 : (List.find? (fun st => decide (st.step_id = id)) (b :: l₂)) =
          List.find? (fun st => decide (st.step_id = id)) l₂ :=
        List.find?_cons_of_neg _ (by simp [hid a b hab, hpa])
      rw [h1, h2]
      exact ih id

lemma find?_eq_of_mem_nodup :
    ∀ {l : List WorkflowStep}, (l.map fun st => st.step_id).Nodup →
    ∀ {a : WorkflowStep}, a ∈ l →
    (l.find? fun st => decide (st.step_id = a.step_id)) = some a := by
  intro l
  induction l with
  | nil => intro _ a ha; cases ha
  | cons x xs ih =>
    intro hnd a ha
    rcases List.mem_cons.mp ha with rfl | ha'
    · exact List.find?_cons_of_pos _ (by simp)
    · have hx : x.step_id ≠ a.step_id := by
        intro he
        have : x.step_id ∈ xs.map fun st => st.step_id := by
          rw [he]
          exact List.mem_map_of_mem _ ha'
        exact (List.nodup_cons.mp hnd).1 this
      rw [List.find?_cons_of_neg _ (by simp [hx])]
      exact ih (List.nodup_cons.mp hnd).2 ha'

lemma insertId_mem (x : String) (l : List String) (id : String) :
    id ∈ insertId x l ↔ id ∈ l ∨ id = x := by
  unfold insertId
  by_cases h : x ∈ l
  · rw [if_pos h]
    constructor
    · exact Or.inl
    · rintro (h1 | rfl)
      · exact h1
      · exact h
  · rw [if_neg h]
    simp [List.mem_append]

lemma insertId_nodup (x : String) (l : List String) (h : l.Nodup) :
    (insertId x l).Nodup := by
  unfold insertId
  by_cases hx : x ∈ l
  · rw [if_pos hx]
    exact h
  · rw [if_neg hx]
    simp [List.nodup_append, h, hx]

/-! ### The fan-out phase -/

lemma launchAll_nil (ready : List String) (c : Nat) :
    launchAll ready [] c = ([], c) := rfl

lemma launchAll_cons_pos (ready : List String) (st : WorkflowStep)
    (rest : List WorkflowStep) (c : Nat) (h : st.step_id ∈ ready) :
    launchAll ready (st :: rest) c =
      ({ st with status := .running, started_at := some c } ::
        (launchAll ready rest (c + 1)).1, (launchAll ready rest (c + 1)).2) := by
  simp [launchAll, h]

lemma launchAll_cons_neg (ready : List String) (st : WorkflowStep)
    (rest : List WorkflowStep) (c : Nat) (h : st.step_id ∉ ready) :
    launchAll ready (st :: rest) c =
      (st :: (launchAll ready rest c).1, (launchAll ready rest c).2) := by
  simp [launchAll, h]

lemma launchAll_clock_le (ready : List String) :
    ∀ (l : List WorkflowStep) (c : Nat), c ≤ (launchAll ready l c).2 := by
  intro l
  induction l with
  | nil => intro c; exact le_rfl
  | cons st rest ih =>
    intro c
    by_cases h : st.step_id ∈ ready
    · rw [launchAll_cons_pos ready st rest c h]
      exact le_trans (by omega) (ih (c + 1))
    · rw [launchAll_cons_neg ready st rest c h]
      exact ih c

lemma launchAll_ids (ready : List String) :
    ∀ (l : List WorkflowStep) (c : Nat),
    ((launchAll ready l c).1.map fun st => st.step_id) = l.map fun st => st.step_id := by
  intro l
  induction l with
  | nil => intro c; rfl
  | cons st rest ih =>
    intro c
    by_cases h : st.step_id ∈ ready
    · rw [launchAll_cons_pos ready st rest c h]
      simp [ih (c + 1)]
    · rw [launchAll_cons_neg ready st rest c h]
      simp [ih c]

lemma LaunchRel_mono {ready : List String} {c1 c1' c2 : Nat} (h : c1 ≤ c1')
    {st st' : WorkflowStep} :
    LaunchRel ready c1' c2 st st' → LaunchRel ready c1 c2 st st' := by
  rintro ⟨hout, hin⟩
  refine ⟨hout, fun hm => ?_⟩
  obtain ⟨t, ht1, ht2, ht3⟩ := hin hm
  exact ⟨t, by omega, ht2, ht3⟩

lemma launchAll_spec (ready : List String) :
    ∀ (l : List WorkflowStep) (c : Nat),
    List.Forall₂ (LaunchRel ready c (launchAll ready l c).2) l (launchAll ready l c).1 := by
  intro l
  induction l with
  | nil => intro c; exact .nil
  | cons st rest ih =>
    intro c
    by_cases h : st.step_id ∈ ready
    · rw [launchAll_cons_pos ready st rest c h]
      refine .cons ⟨fun hn => absurd h hn, fun _ => ?_⟩ ?_
      · exact ⟨c, le_rfl,
          lt_of_lt_of_le (by omega) (launchAll_clock_le ready rest (c + 1)), rfl⟩
      · exact forall₂_imp_mem (ih (c + 1))
          fun a b _ hab => LaunchRel_mono (by omega) hab
    · rw [launchAll_cons_neg ready st rest c h]
      exact .cons ⟨fun _ => rfl, fun hm => absurd hm h⟩ (ih c)

/-! ### The result-processing phase -/

lemma recordAll_nil (registry : Registry) (wfId : String) (ready : List String)
    (c : Nat) (comp : List String) :
    recordAll registry wfId ready [] c comp = ⟨[], c, comp, 0⟩ := rfl

lemma recordAll_cons_pos (registry : Registry) (wfId : String)
    (ready : List String) (st : WorkflowStep) (rest : List WorkflowStep)
    (c : Nat) (comp : List String) (h : st.step_id ∈ ready) :
    recordAll registry wfId ready (st :: rest) c comp =
      ⟨{ st with
          status := if (executeStep registry wfId st).1.success then .completed else .failed,
          result := some (executeStep registry wfId st).1,
          completed_at := some c } ::
        (recordAll registry wfId ready rest (c + 1)
          (if (executeStep registry wfId st).1.success
           then insertId st.step_id comp else comp)).steps,
       (recordAll registry wfId ready rest (c + 1)
          (if (executeStep registry wfId st).1.success
           then insertId st.step_id comp else comp)).clock,
       (recordAll registry wfId ready rest (c + 1)
          (if (executeStep registry wfId st).1.success
           then insertId st.step_id comp else comp)).completed,
       (executeStep registry wfId st).2 +
         (recordAll registry wfId ready rest (c + 1)
          (if (executeStep registry wfId st).1.success
           then insertId st.step_id comp else comp)).invocations⟩ := by
  simp [recordAll, h]

lemma recordAll_cons_neg (registry : Registry) (wfId : String)
    (ready : List String) (st : WorkflowStep) (rest : List WorkflowStep)
    (c : Nat) (comp : List String) (h : st.step_id ∉ ready) :
    recordAll registry wfId ready (st :: rest) c comp =
      ⟨st :: (recordAll registry wfId ready rest c comp).steps,
       (recordAll registry wfId ready rest c comp).clock,
       (recordAll registry wfId ready rest c comp).completed,
       (recordAll registry wfId ready rest c comp).invocations⟩ := by
  simp [recordAll, h]

lemma recordAll_clock_le (registry : Registry) (wfId : String)
    (ready : List String) :
    ∀ (l : List WorkflowStep) (c : Nat) (comp : List String),
    c ≤ (recordAll registry wfId ready l c comp).clock := by
  intro l
  induction l with
  | nil => intro c comp; exact le_rfl
  | cons st rest ih =>
    intro c comp
    by_cases h : st.step_id ∈ ready
    · rw [recordAll_cons_pos registry wfId ready st rest c comp h]
      exact le_trans (by omega) (ih (c + 1) _)
    · rw [recordAll_cons_neg registry wfId ready st rest c comp h]
      exact ih c comp

lemma recordAll_ids (registry : Registry) (wfId : String) (ready : List String) :
    ∀ (l : List WorkflowStep) (c : Nat) (comp : List String),
    ((recordAll registry wfId ready l c comp).steps.map fun st => st.step_id) =
      l.map fun st => st.step_id := by
  intro l
  induction l with
  | nil => intro c comp; rfl
  | cons st rest ih =>
    intro c comp
    by_cases h : st.step_id ∈ ready
    · rw [recordAll_cons_pos registry wfId ready st rest c comp h]
      simp [ih (c + 1)]
    · rw [recordAll_cons_neg registry wfId ready st rest c comp h]
      simp [ih c]

lemma RecordRel_mono {registry : Registry} {wfId : String} {ready : List String}
    {c1 c1' c2 : Nat} (h : c1 ≤ c1') {st st' : WorkflowStep} :
    RecordRel registry wfId ready c1' c2 st st' →
    RecordRel registry wfId ready c1 c2 st st' := by
  rintro ⟨hout, hin⟩
  refine ⟨hout, fun hm => ?_⟩
  obtain ⟨t, ht1, ht2, ht3⟩ := hin hm
  exact ⟨t, by omega, ht2, ht3⟩

lemma recordAll_spec (registry : Registry) (wfId : String) (ready : List String) :
    ∀ (l : List WorkflowStep) (c : Nat) (comp : List String),
    List.Forall₂
      (RecordRel registry wfId ready c (recordAll registry wfId ready l c comp).clock)
      l (recordAll registry wfId ready l c comp).steps := by
  intro l
  induction l with
  | nil => intro c comp; exact .nil
  | cons st rest ih =>
    intro c comp
    by_cases h : st.step_id ∈ ready
    · rw [recordAll_cons_pos registry wfId ready st rest c comp h]
      refine .cons ⟨fun hn => absurd h hn, fun _ => ?_⟩ ?_
      · exact ⟨c, le_rfl,
          lt_of_lt_of_le (by omega) (recordAll_clock_le registry wfId ready rest (c + 1) _), rfl⟩
      · exact forall₂_imp_mem (ih (c + 1) _)
          fun a b _ hab => RecordRel_mono (by omega) hab
    · rw [recordAll_cons_neg registry wfId ready st rest c comp h]
      exact .cons ⟨fun _ => rfl, fun hm => absurd hm h⟩ (ih c comp)

lemma recordAll_completed_sub (registry : Registry) (wfId : String)
    (ready : List String) :
    ∀ (l : List WorkflowStep) (c : Nat) (comp : List String) (id : String),
    id ∈ comp → id ∈ (recordAll registry wfId ready l c comp).completed := by
  intro l
  induction l with
  | nil => intro c comp id h; exact h
  | cons st rest ih =>
    intro c comp id h
    by_cases hm : st.step_id ∈ ready
    · rw [recordAll_cons_pos registry wfId ready st rest c comp hm]
      refine ih (c + 1) _ id ?_
      by_cases hs : (executeStep registry wfId st).1.success
      · rw [if_pos hs]
        exact (insertId_mem _ _ _).mpr (Or.inl h)
      · rw [if_neg hs]
        exact h
    · rw [recordAll_cons_neg registry wfId ready st rest c comp hm]
      exact ih c comp id h

lemma recordAll_completed_super (registry : Registry) (wfId : String)
    (ready : List String) :
    ∀ (l : List WorkflowStep) (c : Nat) (comp : List String) (id : String),
    id ∈ (recordAll registry wfId ready l c comp).completed →
    id ∈ comp ∨ ∃ st, st ∈ l ∧ st.step_id = id ∧ st.step_id ∈ ready ∧
      (executeStep registry wfId st).1.success = true := by
  intro l
  induction l with
  | nil => intro c comp id h; exact Or.inl h
  | cons st rest ih =>
    intro c comp id h
    by_cases hm : st.step_id ∈ ready
    · rw [recordAll_cons_pos registry wfId ready st rest c comp hm] at h
      rcases ih (c + 1) _ id h with h1 | ⟨st', hst', hid, hr, hs⟩
      · by_cases hs : (executeStep registry wfId st).1.success
        · rw [if_pos hs] at h1
          rcases (insertId_mem _ _ _).mp h1 with h2 | rfl
          · exact Or.inl h2
          · exact Or.inr ⟨st, List.mem_cons_self _ _, rfl, hm, hs⟩
        · rw [if_neg hs] at h1
          exact Or.inl h1
      · exact Or.inr ⟨st', List.mem_cons_of_mem _ hst', hid, hr, hs⟩
    · rw [recordAll_cons_neg registry wfId ready st rest c comp hm] at h
      rcases ih c comp id h with h1 | ⟨st', hst', hid, hr, hs⟩
      · exact Or.inl h1
      · exact Or.inr ⟨st', List.mem_cons_of_mem _ hst', hid, hr, hs⟩

lemma recordAll_completed_of_success (registry : Registry) (wfId : String)
    (ready : List String) :
    ∀ (l : List WorkflowStep) (c : Nat) (comp : List String)
      (st : WorkflowStep), st ∈ l → st.step_id ∈ ready →
    (executeStep registry wfId st).1.success = true →
    st.step_id ∈ (recordAll registry wfId ready l c comp).completed := by
  intro l
  induction l with
  | nil => intro c comp st h; cases h
  | cons x rest ih =>
    intro c comp st hst hr hs
    rcases List.mem_cons.mp hst with rfl | hst'
    · rw [recordAll_cons_pos registry wfId ready st rest c comp hr]
      refine recordAll_completed_sub registry wfId ready rest (c + 1) _ _ ?_
      rw [if_pos hs]
      exact (insertId_mem _ _ _).mpr (Or.inr rfl)
    · by_cases hm : x.step_id ∈ ready
      · rw [recordAll_cons_pos registry wfId ready x rest c comp hm]
        exact ih (c + 1) _ st hst' hr hs
      · rw [recordAll_cons_neg registry wfId ready x rest c comp hm]
        exact ih c comp st hst' hr hs

lemma recordAll_completed_nodup (registry : Registry) (wfId : String)
    (ready : List String) :
    ∀ (l : List WorkflowStep) (c : Nat) (comp : List String),
    comp.Nodup → (recordAll registry wfId ready l c comp).completed.Nodup := by
  intro l
  induction l with
  | nil => intro c comp h; exact h
  | cons st rest ih =>
    intro c comp h
    by_cases hm : st.step_id ∈ ready
    · rw [recordAll_cons_pos registry wfId ready st rest c comp hm]
      refine ih (c + 1) _ ?_
      by_cases hs : (executeStep registry wfId st).1.success
      · rw [if_pos hs]
        exact insertId_nodup _ _ h
      · rw [if_neg hs]
        exact h
    · rw [recordAll_cons_neg registry wfId ready st rest c comp hm]
      exact ih c comp h

/-! ### One whole pass -/

lemma readySteps_prop {s : SchedState} {st : WorkflowStep}
    (h : st ∈ readySteps s) :
    st ∈ s.steps ∧ st.status = .waiting ∧ ∀ d ∈ st.dependencies, d ∈ s.completed := by
  obtain ⟨hmem, hb⟩ := List.mem_filter.mp h
  simp only [Bool.and_eq_true, decide_eq_true_eq, List.all_eq_true] at hb
  exact ⟨hmem, hb.1, fun d hd => hb.2 d hd⟩

lemma mem_readyIds_elim {s : SchedState}
    (hnd : (s.steps.map fun st => st.step_id).Nodup) {st : WorkflowStep}
    (hst : st ∈ s.steps) (h : st.step_id ∈ readyIds s) :
    st.status = .waiting ∧ ∀ d ∈ st.dependencies, d ∈ s.completed := by
  obtain ⟨st', hst', hid⟩ := List.mem_map.mp h
  obtain ⟨hmem', hw, hd⟩ := readySteps_prop hst'
  have heq : st' = st := List.inj_on_of_nodup_map hnd hmem' hst hid
  subst heq
  exact ⟨hw, hd⟩

lemma execPass_clock_le (registry : Registry) (wfId : String) (s : SchedState) :
    s.clock ≤ (execPass registry wfId s).clock := by
  show s.clock ≤ (passRo registry wfId s).clock
  refine le_trans (launchAll_clock_le (readyIds s) s.steps s.clock) ?_
  exact recordAll_clock_le registry wfId (readyIds s) (passLp s).1 (passLp s).2 s.completed

lemma execPass_ids (registry : Registry) (wfId : String) (s : SchedState) :
    ((execPass registry wfId s).steps.map fun st => st.step_id) =
      s.steps.map fun st => st.step_id := by
  show ((recordAll registry wfId (readyIds s) (passLp s).1 (passLp s).2
      s.completed).steps.map fun st => st.step_id) = _
  rw [recordAll_ids]
  show ((launchAll (readyIds s) s.steps s.clock).1.map fun st => st.step_id) = _
  rw [launchAll_ids]

lemma execPass_spec (registry : Registry) (wfId : String) {s : SchedState}
    (hnd : (s.steps.map fun st => st.step_id).Nodup) :
    List.Forall₂ (PassStepRel registry wfId s (execPass registry wfId s).clock)
      s.steps (execPass registry wfId s).steps := by
  have hL := launchAll_spec (readyIds s) s.steps s.clock
  have hR := recordAll_spec registry wfId (readyIds s) (passLp s).1 (passLp s).2 s.completed
  have hraw : List.Forall₂ (fun a c =>
      (a.step_id ∉ readyIds s → c = a) ∧
      (a.step_id ∈ readyIds s → ∃ tS tC, s.clock ≤ tS ∧ tS < tC ∧
        tC < (execPass registry wfId s).clock ∧
        c = recordedStep registry wfId a tS tC))
      s.steps (execPass registry wfId s).steps := by
    refine forall₂_compose ?_ hL hR
    intro a b c hab hbc
    by_cases hm : a.step_id ∈ readyIds s
    · refine ⟨fun hn => absurd hm hn, fun _ => ?_⟩
      obtain ⟨tS, h1, h2, rfl⟩ := hab.2 hm
      obtain ⟨tC, h3, h4, rfl⟩ := hbc.2 hm
      have he1 : (passLp s).2 = (launchAll (readyIds s) s.steps s.clock).2 := rfl
      have he2 : (execPass registry wfId s).clock =
          (recordAll registry wfId (readyIds s) (passLp s).1 (passLp s).2
            s.completed).clock := rfl
      exact ⟨tS, tC, h1, by omega, by omega, rfl⟩
    · have hba : b = a := hab.1 hm
      subst hba
      refine ⟨fun _ => hbc.1 hm, fun hin => absurd hin hm⟩
  refine forall₂_imp_mem hraw ?_
  intro a c ha hac
  refine ⟨hac.1, fun hm => ?_⟩
  obtain ⟨hw, hd⟩ := mem_readyIds_elim hnd ha hm
  obtain ⟨tS, tC, h1, h2, h3, h4⟩ := hac.2 hm
  exact ⟨hw, hd, tS, tC, h1, h2, h3, h4⟩

lemma execPass_completed (registry : Registry) (wfId : String) (s : SchedState)
    (id : String) :
    id ∈ (execPass registry wfId s).completed ↔
      id ∈ s.completed ∨ ∃ st, st ∈ s.steps ∧ st.step_id = id ∧
        st.step_id ∈ readyIds s ∧ (executeStep registry wfId st).1.success = true := by
  constructor
  · intro h
    rcases recordAll_completed_super registry wfId (readyIds s) (passLp s).1
        (passLp s).2 s.completed id h with h1 | ⟨st1, hst1, hid, hr, hs⟩
    · exact Or.inl h1
    · obtain ⟨a, ha, hrel⟩ :=
        forall₂_mem_right (launchAll_spec (readyIds s) s.steps s.clock) hst1
      by_cases hm : a.step_id ∈ readyIds s
      · obtain ⟨t, _, _, rfl⟩ := hrel.2 hm
        exact Or.inr ⟨a, ha, hid, hm, hs⟩
      · have hba : st1 = a := hrel.1 hm
        subst hba
        exact absurd hr hm
  · rintro (h | ⟨st, hst, rfl, hr, hs⟩)
    · exact recordAll_completed_sub registry wfId (readyIds s) (passLp s).1
        (passLp s).2 s.completed id h
    · obtain ⟨b, hb, hrel⟩ :=
        forall₂_mem_left (launchAll_spec (readyIds s) s.steps s.clock) hst
      obtain ⟨t, _, _, hbeq⟩ := hrel.2 hr
      rw [hbeq] at hb
      exact recordAll_completed_of_success registry wfId (readyIds s) (passLp s).1
        (passLp s).2 s.completed
        { st with status := .running, started_at := some t } hb hr hs

lemma execPass_completed_nodup (registry : Registry) (wfId : String)
    (s : SchedState) (h : s.completed.Nodup) :
    (execPass registry wfId s).completed.Nodup :=
  recordAll_completed_nodup registry wfId (readyIds s) (passLp s).1
    (passLp s).2 s.completed h

lemma recordedStep_status (registry : Registry) (wfId : String)
    (st : WorkflowStep) (tS tC : Nat) :
    (recordedStep registry wfId st tS tC).status ≠ .waiting ∧
    ((recordedStep registry wfId st tS tC).status = .completed ↔
      (executeStep registry wfId st).1.success = true) := by
  unfold recordedStep
  by_cases hs : (executeStep registry wfId st).1.success
  · rw [if_pos hs]
    simp [hs]
  · rw [if_neg hs]
    simp only [Bool.not_eq_true] at hs
    simp [hs]

lemma sinv_execPass (registry : Registry) (wfId : String) {s : SchedState}
    (hinv : SInv s) : SInv (execPass registry wfId s) := by
  have hspec := execPass_spec registry wfId hinv.nodup
  have hclk := execPass_clock_le registry wfId s
  -- a step that is not WAITING keeps its record unchanged across the pass
  have keep : ∀ dst, dst ∈ s.steps → dst.status ≠ .waiting →
      dst ∈ (execPass registry wfId s).steps := by
    intro dst hdst hnw
    obtain ⟨b', hb', hrel'⟩ := forall₂_mem_left hspec hdst
    have hnr : dst.step_id ∉ readyIds s := fun hin => hnw (hrel'.2 hin).1
    rw [hrel'.1 hnr] at hb'
    exact hb'
  refine ⟨?_, ?_, ?_, ?_, ?_, ?_, ?_, ?_, ?_⟩
  · rw [execPass_ids registry wfId s]
    exact hinv.nodup
  · exact execPass_completed_nodup registry wfId s hinv.comp_nodup
  · -- comp_mem
    intro id hmem
    rcases (execPass_completed registry wfId s id).mp hmem with h1 | ⟨st, hst, rfl, hr, hsc⟩
    · obtain ⟨st, hst, hsid, hcst⟩ := hinv.comp_mem id h1
      have hnw : st.status ≠ .waiting := by
        rw [hcst]
        intro h
        cases h
      exact ⟨st, keep st hst hnw, hsid, hcst⟩
    · obtain ⟨b, hb, hrel⟩ := forall₂_mem_left hspec hst
      obtain ⟨_, _, tS, tC, _, _, _, hbeq⟩ := hrel.2 hr
      subst hbeq
      exact ⟨recordedStep registry wfId st tS tC, hb, rfl,
        (recordedStep_status registry wfId st tS tC).2.mpr hsc⟩
  · -- comp_of_status
    intro b hb hbc
    obtain ⟨a, ha, hrel⟩ := forall₂_mem_right hspec hb
    by_cases hm : a.step_id ∈ readyIds s
    · obtain ⟨hw, hd, tS, tC, _, _, _, hbeq⟩ := hrel.2 hm
      subst hbeq
      have hsc := (recordedStep_status registry wfId a tS tC).2.mp hbc
      exact (execPass_completed registry wfId s _).mpr (Or.inr ⟨a, ha, rfl, hm, hsc⟩)
    · have hba : b = a := hrel.1 hm
      subst hba
      exact (execPass_completed registry wfId s _).mpr
        (Or.inl (hinv.comp_of_status b ha hbc))
  · -- started_lt
    intro b hb t ht
    obtain ⟨a, ha, hrel⟩ := forall₂_mem_right hspec hb
    by_cases hm : a.step_id ∈ readyIds s
    · obtain ⟨_, _, tS, tC, h1, h2, h3, hbeq⟩ := hrel.2 hm
      subst hbeq
      have hts : some tS = some t := by
        rw [← ht]
        rfl
      cases hts
      omega
    · have hba : b = a := hrel.1 hm
      subst hba
      exact lt_of_lt_of_le (hinv.started_lt b ha t ht) hclk
  · -- completed_lt
    intro b hb t ht
    obtain ⟨a, ha, hrel⟩ := forall₂_mem_right hspec hb
    by_cases hm : a.step_id ∈ readyIds s
    · obtain ⟨_, _, tS, tC, h1, h2, h3, hbeq⟩ := hrel.2 hm
      subst hbeq
      have htc : some tC = some t := by
        rw [← ht]
        rfl
      cases htc
      exact h3
    · have hba : b = a := hrel.1 hm
      subst hba
      exact lt_of_lt_of_le (hinv.completed_lt b ha t ht) hclk
  · -- waiting_none
    intro b hb hbw
    obtain ⟨a, ha, hrel⟩ := forall₂_mem_right hspec hb
    by_cases hm : a.step_id ∈ readyIds s
    · obtain ⟨_, _, tS, tC, _, _, _, hbeq⟩ := hrel.2 hm
      subst hbeq
      exact absurd hbw (recordedStep_status registry wfId a tS tC).1
    · have hba : b = a := hrel.1 hm
      subst hba
      exact hinv.waiting_none b ha hbw
  · -- terminal_ts
    intro b hb hbc
    obtain ⟨a, ha, hrel⟩ := forall₂_mem_right hspec hb
    by_cases hm : a.step_id ∈ readyIds s
    · obtain ⟨_, _, tS, tC, _, _, _, hbeq⟩ := hrel.2 hm
      subst hbeq
      exact ⟨tC, rfl⟩
    · have hba : b = a := hrel.1 hm
      subst hba
      exact hinv.terminal_ts b ha hbc
  · -- dep_ts
    intro b hb tS hts d hd
    obtain ⟨a, ha, hrel⟩ := forall₂_mem_right hspec hb
    by_cases hm : a.step_id ∈ readyIds s
    · obtain ⟨hw, hdep, tS', tC', h1, h2, h3, hbeq⟩ := hrel.2 hm
      subst hbeq
      have hts' : some tS' = some tS := by
        rw [← hts]
        rfl
      cases hts'
      have hdd : d ∈ a.dependencies := hd
      have hdc : d ∈ s.completed := hdep d hdd
      obtain ⟨dst, hdst, hdid, hdcst⟩ := hinv.comp_mem d hdc
      obtain ⟨tC0, htc0⟩ := hinv.terminal_ts dst hdst hdcst
      have hlt := hinv.completed_lt dst hdst tC0 htc0
      have hnw : dst.status ≠ .waiting := by
        rw [hdcst]
        intro h
        cases h
      exact ⟨dst, keep dst hdst hnw, hdid, tC0, htc0, by omega⟩
    · have hba : b = a := hrel.1 hm
      subst hba
      obtain ⟨dst, hdst, hdid, tC0, htc0, hle⟩ := hinv.dep_ts b ha tS hts d hd
      have hnw : dst.status ≠ .waiting := by
        intro h
        rw [hinv.waiting_none dst hdst h] at htc0
        cases htc0
      exact ⟨dst, keep dst hdst hnw, hdid, tC0, htc0, hle⟩

/-! ### The invariant along the loop -/

lemma passStepRel_id {registry : Registry} {wfId : String} {s : SchedState}
    {c' : Nat} : ∀ a b, PassStepRel registry wfId s c' a b →
    b.step_id = a.step_id := by
  intro a b hab
  by_cases hm : a.step_id ∈ readyIds s
  · obtain ⟨_, _, tS, tC, _, _, _, hbeq⟩ := hab.2 hm
    subst hbeq
    rfl
  · rw [hab.1 hm]

lemma sinv_exit_failed {s : SchedState} (hinv : SInv s) :
    SInv { s with wstatus := WorkflowStatus.failed } :=
  ⟨hinv.nodup, hinv.comp_nodup, hinv.comp_mem, hinv.comp_of_status,
    hinv.started_lt, hinv.completed_lt, hinv.waiting_none, hinv.terminal_ts,
    hinv.dep_ts⟩

lemma sinv_tick (registry : Registry) (wfId : String) {x : SchedState × Bool}
    (hinv : SInv x.1) : SInv ((tick registry wfId x).1) := by
  obtain ⟨s, b⟩ := x
  cases b with
  | false => exact hinv
  | true =>
    show SInv ((match schedStep registry wfId s with
      | .exit s' => (s', false)
      | .cont s' => (s', true)).1)
    unfold schedStep
    by_cases hg : s.completed.length < s.steps.length
    · rw [if_pos hg]
      by_cases he : (readySteps s).isEmpty = true
      · rw [if_pos he]
        by_cases hf : (s.steps.any fun st => decide (st.status = StepStatus.failed)) = true
        · rw [if_pos hf]
          exact sinv_exit_failed hinv
        · rw [if_neg hf]
          exact hinv
      · rw [if_neg he]
        exact sinv_execPass registry wfId hinv
    · rw [if_neg hg]
      exact hinv

lemma sinv_iterate (registry : Registry) (wfId : String) {x : SchedState × Bool}
    (h : SInv x.1) : ∀ n, SInv (((tick registry wfId)^[n] x).1) := by
  intro n
  induction n with
  | zero => exact h
  | succ n ih =>
    rw [Function.iterate_succ_apply']
    exact sinv_tick registry wfId ih

lemma sinv_init (wf : Workflow)
    (hnodup : (wf.steps.map fun st => st.step_id).Nodup)
    (hinit : ∀ st ∈ wf.steps, StepInit st) : SInv (initState wf) := by
  refine ⟨hnodup, List.nodup_nil, ?_, ?_, ?_, ?_, ?_, ?_, ?_⟩
  · intro id h
    cases h
  · intro st hst hc
    rw [(hinit st hst).1] at hc
    cases hc
  · intro st hst t ht
    rw [(hinit st hst).2.1] at ht
    cases ht
  · intro st hst t ht
    rw [(hinit st hst).2.2] at ht
    cases ht
  · intro st hst _
    exact (hinit st hst).2.2
  · intro st hst hc
    rw [(hinit st hst).1] at hc
    cases hc
  · intro st hst tS hts
    rw [(hinit st hst).2.1] at hts
    cases hts

/-- C5: a step naming an unregistered worker yields the not-found outcome
(`success = false`, message "Agent {name} not found") with zero worker
invocations, and the scheduling pass that picks the step up records that
outcome and marks the step FAILED. -/
theorem unknown_worker_fails_without_invocation
    (registry : Registry) (wfId : String) (s : SchedState) (step : WorkflowStep)
    (hreg : registry step.agent_name = none)
    (hmem : step ∈ readySteps s)
    (hnodup : (s.steps.map fun st => st.step_id).Nodup)
    (hguard : s.completed.length < s.steps.length) :
    (executeStep registry wfId step).1.success = false ∧
    (executeStep registry wfId step).2 = 0 ∧
    (executeStep registry wfId step).1.error_message =
      some ("Agent " ++ step.agent_name ++ " not found") ∧
    ∃ s', schedStep registry wfId s = .cont s' ∧
      statusOf s' step.step_id = some StepStatus.failed ∧
      resultErrOf s' step.step_id =
        some ("Agent " ++ step.agent_name ++ " not found") := by
  have hex : executeStep registry wfId step = (agentNotFound step.agent_name, 0) := by
    unfold executeStep
    rw [hreg]
  refine ⟨by rw [hex]; rfl, by rw [hex], by rw [hex]; rfl, ?_⟩
  have hne : readySteps s ≠ [] := List.ne_nil_of_mem hmem
  have hie : (readySteps s).isEmpty = false := by
    cases h : readySteps s with
    | nil => exact absurd h hne
    | cons a l => rfl
  have hstep : schedStep registry wfId s = .cont (execPass registry wfId s) := by
    unfold schedStep
    rw [if_pos hguard, if_neg (by simp [hie])]
  refine ⟨execPass registry wfId s, hstep, ?_⟩
  have hmem' : step ∈ s.steps := List.mem_of_mem_filter hmem
  have hfind : (s.steps.find? fun st => decide (st.step_id = step.step_id)) = some step :=
    find?_eq_of_mem_nodup hnodup hmem'
  have hspec := execPass_spec registry wfId hnodup
  rcases find?_forall₂ passStepRel_id hspec step.step_id with ⟨h1, _⟩ | ⟨a, b, h1, h2, hrel⟩
  · rw [hfind] at h1
    cases h1
  · rw [hfind] at h1
    have haeq : step = a := Option.some.inj h1
    subst haeq
    have hready : step.step_id ∈ readyIds s := List.mem_map_of_mem _ hmem
    obtain ⟨hw, hd, tS, tC, _, _, _, hbeq⟩ := hrel.2 hready
    subst hbeq
    constructor
    · show statusOf (execPass registry wfId s) step.step_id = some StepStatus.failed
      unfold statusOf findStep
      rw [h2]
      show some (recordedStep registry wfId step tS tC).status = some StepStatus.failed
      unfold recordedStep
      rw [hex]
      rfl
    · show resultErrOf (execPass registry wfId s) step.step_id =
        some ("Agent " ++ step.agent_name ++ " not found")
      unfold resultErrOf findStep
      rw [h2]
      show (match (recordedStep registry wfId step tS tC).result with
            | some r => r.error_message
            | none => none) =
          some ("Agent " ++ step.agent_name ++ " not found")
      unfold recordedStep
      rw [hex]
      rfl

theorem unknown_worker_witness :
    (executeStep regNone "w5" stepC5).1.success = false ∧
    (executeStep regNone "w5" stepC5).2 = 0 ∧
    (executeStep regNone "w5" stepC5).1.error_message =
      some ("Agent " ++ stepC5.agent_name ++ " not found") ∧
    ∃ s', schedStep regNone "w5" (initState wfC5) = .cont s' ∧
      statusOf s' stepC5.step_id = some StepStatus.failed ∧
      resultErrOf s' stepC5.step_id =
        some ("Agent " ++ stepC5.agent_name ++ " not found") :=
  unknown_worker_fails_without_invocation regNone "w5" (initState wfC5) stepC5
    rfl (show stepC5 ∈ [stepC5] from List.mem_singleton_self _)
    (by decide) (by decide)

/-! ### The trace of the loop -/

lemma traceAt_succ (registry : Registry) (wf : Workflow) (n : Nat) :
    traceAt registry wf (n + 1) =
      tick registry wf.workflow_id (traceAt registry wf n) :=
  Function.iterate_succ_apply' _ _ _

lemma schedStep_cases (registry : Registry) (wfId : String) (s : SchedState) :
    (schedStep registry wfId s = .exit s ∧
      ¬(s.completed.length < s.steps.length)) ∨
    (schedStep registry wfId s = .exit { s with wstatus := .failed } ∧
      s.completed.length < s.steps.length ∧ (readySteps s).isEmpty = true ∧
      (s.steps.any fun st => decide (st.status = StepStatus.failed)) = true) ∨
    (schedStep registry wfId s = .cont s ∧
      s.completed.length < s.steps.length ∧ (readySteps s).isEmpty = true ∧
      (s.steps.any fun st => decide (st.status = StepStatus.failed)) = false) ∨
    (schedStep registry wfId s = .cont (execPass registry wfId s) ∧
      s.completed.length < s.steps.length ∧ (readySteps s).isEmpty = false) := by
  by_cases hg : s.completed.length < s.steps.length
  · by_cases he : (readySteps s).isEmpty = true
    · by_cases hf : (s.steps.any fun st => decide (st.status = StepStatus.failed)) = true
      · refine Or.inr (Or.inl ⟨?_, hg, he, hf⟩)
        unfold schedStep
        rw [if_pos hg, if_pos he, if_pos hf]
      · refine Or.inr (Or.inr (Or.inl ⟨?_, hg, he, Bool.not_eq_true _ ▸ hf⟩))
        unfold schedStep
        rw [if_pos hg, if_pos he, if_neg hf]
    · refine Or.inr (Or.inr (Or.inr ⟨?_, hg, Bool.not_eq_true _ ▸ he⟩))
      unfold schedStep
      rw [if_pos hg, if_neg he]
  · refine Or.inl ⟨?_, hg⟩
    unfold schedStep
    rw [if_neg hg]

lemma tick_true_exit (registry : Registry) (wfId : String) (s s' : SchedState)
    (h : schedStep registry wfId s = .exit s') :
    tick registry wfId (s, true) = (s', false) := by
  show (match schedStep registry wfId s with
    | LoopStep.exit s0 => (s0, false)
    | LoopStep.cont s0 => (s0, true)) = _
  rw [h]

lemma tick_true_cont (registry : Registry) (wfId : String) (s s' : SchedState)
    (h : schedStep registry wfId s = .cont s') :
    tick registry wfId (s, true) = (s', true) := by
  show (match schedStep registry wfId s with
    | LoopStep.exit s0 => (s0, false)
    | LoopStep.cont s0 => (s0, true)) = _
  rw [h]

lemma sinv_trace (registry : Registry) (wf : Workflow)
    (hnodup : (wf.steps.map fun st => st.step_id).Nodup)
    (hinit : ∀ st ∈ wf.steps, StepInit st) :
    ∀ n, SInv (traceAt registry wf n).1 := fun n =>
  sinv_iterate registry wf.workflow_id (sinv_init wf hnodup hinit) n

lemma skel_execPass (registry : Registry) (wfId : String) {s : SchedState}
    (hnd : (s.steps.map fun st => st.step_id).Nodup) :
    List.Forall₂ SkelRel s.steps (execPass registry wfId s).steps := by
  refine (execPass_spec registry wfId hnd).imp ?_
  intro a b hab
  by_cases hm : a.step_id ∈ readyIds s
  · obtain ⟨_, _, tS, tC, _, _, _, hbeq⟩ := hab.2 hm
    subst hbeq
    exact ⟨rfl, rfl⟩
  · rw [hab.1 hm]
    exact ⟨rfl, rfl⟩

lemma skel_trace (registry : Registry) (wf : Workflow)
    (hnodup : (wf.steps.map fun st => st.step_id).Nodup)
    (hinit : ∀ st ∈ wf.steps, StepInit st) :
    ∀ n, List.Forall₂ SkelRel wf.steps (traceAt registry wf n).1.steps := by
  intro n
  induction n with
  | zero =>
    show List.Forall₂ SkelRel wf.steps wf.steps
    exact List.forall₂_same.mpr fun x _ => ⟨rfl, rfl⟩
  | succ n ih =>
    rw [traceAt_succ]
    cases hb : (traceAt registry wf n).2 with
    | false =>
      have hxeta : traceAt registry wf n = ((traceAt registry wf n).1, false) := by
        rw [← hb]
      rw [hxeta]
      exact ih
    | true =>
      have hxeta : traceAt registry wf n = ((traceAt registry wf n).1, true) := by
        rw [← hb]
      rw [hxeta]
      have htrans : ∀ {l₂ : List WorkflowStep},
          List.Forall₂ SkelRel (traceAt registry wf n).1.steps l₂ →
          List.Forall₂ SkelRel wf.steps l₂ := fun h2 =>
        forall₂_compose
          (fun a b c hab hbc => ⟨hbc.1.trans hab.1, hbc.2.trans hab.2⟩) ih h2
      rcases schedStep_cases registry wf.workflow_id (traceAt registry wf n).1 with
        ⟨heq, _⟩ | ⟨heq, _, _, _⟩ | ⟨heq, _, _, _⟩ | ⟨heq, _, _⟩
      · rw [tick_true_exit _ _ _ _ heq]
        exact ih
      · rw [tick_true_exit _ _ _ _ heq]
        exact ih
      · rw [tick_true_cont _ _ _ _ heq]
        exact ih
      · rw [tick_true_cont _ _ _ _ heq]
        exact htrans (skel_execPass registry wf.workflow_id
          (sinv_trace registry wf hnodup hinit n).nodup)

lemma trace_status_step (registry : Registry) (wf : Workflow)
    (hnodup : (wf.steps.map fun st => st.step_id).Nodup)
    (hinit : ∀ st ∈ wf.steps, StepInit st) (n : Nat) (id : String) :
    statusOf (traceAt registry wf (n + 1)).1 id =
      statusOf (traceAt registry wf n).1 id ∨
    (statusOf (traceAt registry wf n).1 id = some .waiting ∧
     ∃ st, st ∈ (traceAt registry wf n).1.steps ∧ st.step_id = id ∧
       ∀ d ∈ st.dependencies, d ∈ (traceAt registry wf n).1.completed) := by
  rw [traceAt_succ]
  cases hb : (traceAt registry wf n).2 with
  | false =>
    have hxeta : traceAt registry wf n = ((traceAt registry wf n).1, false) := by
      rw [← hb]
    rw [hxeta]
    exact Or.inl rfl
  | true =>
    have hxeta : traceAt registry wf n = ((traceAt registry wf n).1, true) := by
      rw [← hb]
    rw [hxeta]
    rcases schedStep_cases registry wf.workflow_id (traceAt registry wf n).1 with
      ⟨heq, _⟩ | ⟨heq, _, _, _⟩ | ⟨heq, _, _, _⟩ | ⟨heq, _, _⟩
    · rw [tick_true_exit _ _ _ _ heq]
      exact Or.inl rfl
    · rw [tick_true_exit _ _ _ _ heq]
      exact Or.inl rfl
    · rw [tick_true_cont _ _ _ _ heq]
      exact Or.inl rfl
    · rw [tick_true_cont _ _ _ _ heq]
      have hnd := (sinv_trace registry wf hnodup hinit n).nodup
      rcases find?_forall₂ passStepRel_id
          (execPass_spec registry wf.workflow_id hnd) id with
        ⟨h1, h2⟩ | ⟨a, b, h1, h2, hrel⟩
      · refine Or.inl ?_
        show statusOf (execPass registry wf.workflow_id (traceAt registry wf n).1) id = _
        unfold statusOf findStep
        rw [h1, h2]
      · by_cases hm : a.step_id ∈ readyIds (traceAt registry wf n).1
        · obtain ⟨hw, hdeps, _, _, _, _, _, _⟩ := hrel.2 hm
          have hid1 : a.step_id = id := by simpa using List.find?_some h1
          refine Or.inr ⟨?_, a, List.mem_of_find?_eq_some h1, hid1, hdeps⟩
          show statusOf (traceAt registry wf n).1 id = some .waiting
          unfold statusOf findStep
          rw [h1]
          simp [hw]
        · have hba : b = a := hrel.1 hm
          refine Or.inl ?_
          show statusOf (execPass registry wf.workflow_id (traceAt registry wf n).1) id = _
          unfold statusOf findStep
          rw [h1, h2, hba]

lemma trace_status_stable (registry : Registry) (wf : Workflow)
    (hnodup : (wf.steps.map fun st => st.step_id).Nodup)
    (hinit : ∀ st ∈ wf.steps, StepInit st) {n : Nat} {id : String}
    {v : StepStatus} (hv : v ≠ .waiting)
    (h : statusOf (traceAt registry wf n).1 id = some v) :
    ∀ m, n ≤ m → statusOf (traceAt registry wf m).1 id = some v := by
  intro m hm
  induction m, hm using Nat.le_induction with
  | base => exact h
  | succ m _ ih =>
    rcases trace_status_step registry wf hnodup hinit m id with heq | ⟨hw, _⟩
    · rw [heq]
      exact ih
    · rw [ih] at hw
      exact absurd (Option.some.inj hw) hv

lemma trace_never_completed (registry : Registry) (wf : Workflow)
    (hnodup : (wf.steps.map fun st => st.step_id).Nodup)
    (hinit : ∀ st ∈ wf.steps, StepInit st) {A : String} {k : Nat}
    (hk : statusOf (traceAt registry wf k).1 A = some .failed) :
    ∀ n, statusOf (traceAt registry wf n).1 A ≠ some .completed := by
  intro n hc
  rcases le_total n k with hnk | hkn
  · have hs := trace_status_stable registry wf hnodup hinit (by decide) hc k hnk
    rw [hk] at hs
    exact absurd (Option.some.inj hs) (by decide)
  · have hs := trace_status_stable registry wf hnodup hinit (by decide) hk n hkn
    rw [hc] at hs
    exact absurd (Option.some.inj hs) (by decide)

lemma trace_blocked_one (registry : Registry) (wf : Workflow)
    (hnodup : (wf.steps.map fun st => st.step_id).Nodup)
    (hinit : ∀ st ∈ wf.steps, StepInit st) {A Y : String}
    (hAnc : ∀ n, statusOf (traceAt registry wf n).1 A ≠ some .completed)
    (hdep : DirectDep wf.steps Y A) :
    ∀ n, statusOf (traceAt registry wf n).1 Y = some .waiting := by
  obtain ⟨stY, hstY, hidY, hAY⟩ := hdep
  intro n
  induction n with
  | zero =>
    show statusOf (initState wf) Y = some .waiting
    unfold statusOf findStep
    rw [← hidY, show (initState wf).steps = wf.steps from rfl,
      find?_eq_of_mem_nodup hnodup hstY]
    simp [(hinit stY hstY).1]
  | succ n ih =>
    rcases trace_status_step registry wf hnodup hinit n Y with heq | ⟨_, st, hst, hstid, hdeps⟩
    · rw [heq]
      exact ih
    · exfalso
      obtain ⟨b, hb, hskel⟩ := forall₂_mem_left (skel_trace registry wf hnodup hinit n) hstY
      have hbid : b.step_id = Y := by rw [hskel.1, hidY]
      have hbst : b = st :=
        List.inj_on_of_nodup_map (sinv_trace registry wf hnodup hinit n).nodup
          hb hst (by rw [hbid, hstid])
      have hAdeps : A ∈ st.dependencies := by
        rw [← hbst, hskel.2]
        exact hAY
      have hAcomp : A ∈ (traceAt registry wf n).1.completed := hdeps A hAdeps
      obtain ⟨dst, hdst, hdid, hdc⟩ :=
        (sinv_trace registry wf hnodup hinit n).comp_mem A hAcomp
      have hAs : statusOf (traceAt registry wf n).1 A = some .completed := by
        unfold statusOf findStep
        rw [← hdid,
          find?_eq_of_mem_nodup (sinv_trace registry wf hnodup hinit n).nodup hdst]
        simp [hdc]
      exact hAnc n hAs

lemma trace_chain_blocked (registry : Registry) (wf : Workflow)
    (hnodup : (wf.steps.map fun st => st.step_id).Nodup)
    (hinit : ∀ st ∈ wf.steps, StepInit st) :
    ∀ {B A : String}, DepChain wf.steps B A →
    (∀ n, statusOf (traceAt registry wf n).1 A ≠ some .completed) →
    ∀ n, statusOf (traceAt registry wf n).1 B = some .waiting := by
  intro B A hchain
  induction hchain with
  | base hdep =>
    intro hAnc
    exact trace_blocked_one registry wf hnodup hinit hAnc hdep
  | @cons b c a hdep hchain' ih =>
    intro hAnc
    have hCw := ih hAnc
    have hCnc : ∀ n, statusOf (traceAt registry wf n).1 c ≠ some .completed := by
      intro n hc
      rw [hCw n] at hc
      exact absurd (Option.some.inj hc) (by decide)
    exact trace_blocked_one registry wf hnodup hinit hCnc hdep

lemma any_failed_of_statusOf {s : SchedState} {A : String}
    (h : statusOf s A = some .failed) :
    (s.steps.any fun st => decide (st.status = StepStatus.failed)) = true := by
  unfold statusOf findStep at h
  cases hf : s.steps.find? fun st => decide (st.step_id = A) with
  | none =>
    rw [hf] at h
    cases h
  | some st =>
    rw [hf] at h
    have hst : st.status = .failed :=
      Option.some.inj (show some st.status = some StepStatus.failed from h)
    exact List.any_eq_true.mpr ⟨st, List.mem_of_find?_eq_some hf, by simp [hst]⟩

lemma guard_of_waiting {s : SchedState} (hinv : SInv s) {B : String}
    (hB : statusOf s B = some .waiting) :
    s.completed.length < s.steps.length := by
  unfold statusOf findStep at hB
  cases hf : s.steps.find? fun st => decide (st.step_id = B) with
  | none =>
    rw [hf] at hB
    cases hB
  | some stB =>
    rw [hf] at hB
    have hidB : stB.step_id = B := by simpa using List.find?_some hf
    have hmem : stB ∈ s.steps := List.mem_of_find?_eq_some hf
    have hw : stB.status = .waiting :=
      Option.some.inj (show some stB.status = some StepStatus.waiting from hB)
    have hBnot : B ∉ s.completed := by
      intro hin
      obtain ⟨dst, hdst, hdid, hdc⟩ := hinv.comp_mem B hin
      have hde : dst = stB :=
        List.inj_on_of_nodup_map hinv.nodup hdst hmem (by rw [hdid, hidB])
      rw [hde, hw] at hdc
      cases hdc
    have hsub : s.completed ⊆ (s.steps.map fun st => st.step_id).erase B := by
      intro id hid
      obtain ⟨dst, hdst, hdid, _⟩ := hinv.comp_mem id hid
      have hidmem : id ∈ s.steps.map fun st => st.step_id := by
        rw [← hdid]
        exact List.mem_map_of_mem _ hdst
      have hne : id ≠ B := fun he => hBnot (he ▸ hid)
      exact (List.mem_erase_of_ne hne).mpr hidmem
    have hBmem : B ∈ s.steps.map fun st => st.step_id := by
      rw [← hidB]
      exact List.mem_map_of_mem _ hmem
    have hle := (hinv.comp_nodup.subperm hsub).length_le
    have herase := List.length_erase_of_mem hBmem
    have hmap : (s.steps.map fun st => st.step_id).length = s.steps.length :=
      List.length_map _ _
    have hpos : 0 < s.steps.length := List.length_pos_of_mem hmem
    omega

/-! ### Termination with FAILED once a step has failed -/

lemma countWaiting_le {l l' : List WorkflowStep}
    (h : List.Forall₂ (fun a b => b = a ∨ (a.status = .waiting ∧ b.status ≠ .waiting)) l l') :
    (l'.filter fun st => decide (st.status = StepStatus.waiting)).length ≤
    (l.filter fun st => decide (st.status = StepStatus.waiting)).length := by
  induction h with
  | nil => exact le_rfl
  | @cons a b l₁ l₂ hab htail ih =>
    rcases hab with rfl | ⟨ha, hb⟩
    · simp only [List.filter_cons]
      by_cases hpa : decide (b.status = StepStatus.waiting) = true
      · rw [if_pos hpa, if_pos hpa]
        simpa using ih
      · rw [if_neg hpa, if_neg hpa]
        exact ih
    · simp only [List.filter_cons]
      rw [if_neg (by simp [hb]), if_pos (by simp [ha])]
      simp only [List.length_cons]
      omega

lemma countWaiting_lt {ready : List String} :
    ∀ {l l' : List WorkflowStep},
    List.Forall₂ (fun a b => (a.step_id ∉ ready → b = a) ∧
      (a.step_id ∈ ready → a.status = .waiting ∧ b.status ≠ .waiting)) l l' →
    ∀ a0, a0 ∈ l → a0.step_id ∈ ready →
    (l'.filter fun st => decide (st.status = StepStatus.waiting)).length <
    (l.filter fun st => decide (st.status = StepStatus.waiting)).length := by
  intro l l' h
  induction h with
  | nil =>
    intro a0 h0
    cases h0
  | @cons a b l₁ l₂ hab htail ih =>
    intro a0 h0 hr0
    have hweak : List.Forall₂
        (fun a b => b = a ∨ (a.status = .waiting ∧ b.status ≠ .waiting)) l₁ l₂ := by
      refine htail.imp ?_
      intro x y hxy
      by_cases hm : x.step_id ∈ ready
      · exact Or.inr (hxy.2 hm)
      · exact Or.inl (hxy.1 hm)
    rcases List.mem_cons.mp h0 with rfl | h0'
    · obtain ⟨hw, hnb⟩ := hab.2 hr0
      simp only [List.filter_cons]
      rw [if_neg (by simp [hnb]), if_pos (by simp [hw])]
      simp only [List.length_cons]
      have := countWaiting_le hweak
      omega
    · have htl := ih a0 h0' hr0
      simp only [List.filter_cons]
      by_cases hm : a.step_id ∈ ready
      · obtain ⟨hw, hnb⟩ := hab.2 hm
        rw [if_neg (by simp [hnb]), if_pos (by simp [hw])]
        simp only [List.length_cons]
        omega
      · have hba : b = a := hab.1 hm
        subst hba
        by_cases hpa : decide (b.status = StepStatus.waiting) = true
        · rw [if_pos hpa, if_pos hpa]
          simpa using htl
        · rw [if_neg hpa, if_neg hpa]
          exact htl

lemma execPass_countWaiting_lt (registry : Registry) (wfId : String)
    {s : SchedState} (hinv : SInv s) (hne : readySteps s ≠ []) :
    countWaiting (execPass registry wfId s) < countWaiting s := by
  obtain ⟨r0, hr0⟩ := List.exists_mem_of_ne_nil _ hne
  have hr0' : r0 ∈ s.steps := List.mem_of_mem_filter hr0
  have hr0id : r0.step_id ∈ readyIds s := List.mem_map_of_mem _ hr0
  have hrel : List.Forall₂ (fun a b => (a.step_id ∉ readyIds s → b = a) ∧
      (a.step_id ∈ readyIds s → a.status = .waiting ∧ b.status ≠ .waiting))
      s.steps (execPass registry wfId s).steps := by
    refine (execPass_spec registry wfId hinv.nodup).imp ?_
    intro a b hab
    refine ⟨hab.1, fun hm => ?_⟩
    obtain ⟨hw, _, tS, tC, _, _, _, hbeq⟩ := hab.2 hm
    refine ⟨hw, ?_⟩
    rw [hbeq]
    exact (recordedStep_status registry wfId a tS tC).1
  exact countWaiting_lt hrel r0 hr0' hr0id

lemma trace_exits_failed (registry : Registry) (wf : Workflow)
    (hnodup : (wf.steps.map fun st => st.step_id).Nodup)
    (hinit : ∀ st ∈ wf.steps, StepInit st) {A B : String}
    (hBw : ∀ n, statusOf (traceAt registry wf n).1 B = some .waiting) :
    ∀ c n, countWaiting (traceAt registry wf n).1 = c →
    (traceAt registry wf n).2 = true →
    statusOf (traceAt registry wf n).1 A = some .failed →
    ∃ j, 1 ≤ j ∧ (traceAt registry wf (n + j)).2 = false ∧
      (traceAt registry wf (n + j)).1.wstatus = .failed := by
  intro c
  induction c using Nat.strong_induction_on with
  | _ c ih =>
    intro n hc hflag hA
    have hs := sinv_trace registry wf hnodup hinit n
    have hguard := guard_of_waiting hs (hBw n)
    have hxeta : traceAt registry wf n = ((traceAt registry wf n).1, true) := by
      rw [← hflag]
    rcases schedStep_cases registry wf.workflow_id (traceAt registry wf n).1 with
      ⟨heq, hng⟩ | ⟨heq, _, _, _⟩ | ⟨heq, _, _, hnf⟩ | ⟨heq, _, hie⟩
    · exact absurd hguard hng
    · have hnext : traceAt registry wf (n + 1) =
          ({ (traceAt registry wf n).1 with wstatus := .failed }, false) := by
        rw [traceAt_succ, hxeta, tick_true_exit _ _ _ _ heq]
      refine ⟨1, le_rfl, ?_, ?_⟩
      · rw [hnext]
      · rw [hnext]
    · rw [any_failed_of_statusOf hA] at hnf
      cases hnf
    · have hnext : traceAt registry wf (n + 1) =
          (execPass registry wf.workflow_id (traceAt registry wf n).1, true) := by
        rw [traceAt_succ, hxeta, tick_true_cont _ _ _ _ heq]
      have hflag1 : (traceAt registry wf (n + 1)).2 = true := by
        rw [hnext]
      have hA1 : statusOf (traceAt registry wf (n + 1)).1 A = some .failed :=
        trace_status_stable registry wf hnodup hinit (by decide) hA (n + 1)
          (Nat.le_succ n)
      have hne : readySteps (traceAt registry wf n).1 ≠ [] := by
        intro h0
        rw [h0] at hie
        cases hie
      have hlt : countWaiting (traceAt registry wf (n + 1)).1 < c := by
        rw [hnext, ← hc]
        exact execPass_countWaiting_lt registry wf.workflow_id hs hne
      obtain ⟨j, hj1, hj2, hj3⟩ :=
        ih (countWaiting (traceAt registry wf (n + 1)).1) hlt (n + 1) rfl hflag1 hA1
      refine ⟨j + 1, by omega, ?_, ?_⟩
      · rw [show n + (j + 1) = n + 1 + j from by omega]
        exact hj2
      · rw [show n + (j + 1) = n + 1 + j from by omega]
        exact hj3

lemma trace_flag_origin (registry : Registry) (wf : Workflow) :
    ∀ {k : Nat}, (traceAt registry wf k).2 = false →
    ∃ m, m < k ∧ (traceAt registry wf m).2 = true ∧
      (traceAt registry wf (m + 1)).2 = false := by
  intro k
  induction k with
  | zero =>
    intro h
    exact Bool.noConfusion (show true = false from h)
  | succ k ih =>
    intro h
    cases hk : (traceAt registry wf k).2 with
    | true => exact ⟨k, Nat.lt_succ_self k, hk, h⟩
    | false =>
      obtain ⟨m, hm1, hm2, hm3⟩ := ih hk
      exact ⟨m, by omega, hm2, hm3⟩

lemma trace_exit_failed_shape (registry : Registry) (wf : Workflow)
    (hnodup : (wf.steps.map fun st => st.step_id).Nodup)
    (hinit : ∀ st ∈ wf.steps, StepInit st) {m : Nat} {B : String}
    (hBw : statusOf (traceAt registry wf m).1 B = some .waiting)
    (hm : (traceAt registry wf m).2 = true)
    (hm1 : (traceAt registry wf (m + 1)).2 = false) :
    (traceAt registry wf (m + 1)).1.wstatus = .failed := by
  have hs := sinv_trace registry wf hnodup hinit m
  have hguard := guard_of_waiting hs hBw
  have hxeta : traceAt registry wf m = ((traceAt registry wf m).1, true) := by
    rw [← hm]
  rcases schedStep_cases registry wf.workflow_id (traceAt registry wf m).1 with
    ⟨heq, hng⟩ | ⟨heq, _, _, _⟩ | ⟨heq, _, _, _⟩ | ⟨heq, _, _⟩
  · exact absurd hguard hng
  · rw [traceAt_succ, hxeta, tick_true_exit _ _ _ _ heq]
  · rw [traceAt_succ, hxeta, tick_true_cont _ _ _ _ heq] at hm1
    cases hm1
  · rw [traceAt_succ, hxeta, tick_true_cont _ _ _ _ heq] at hm1
    cases hm1

lemma runLoop_of_flag_false (registry : Registry) (wf : Workflow) {m : Nat}
    (h : (traceAt registry wf m).2 = false) :
    runLoop registry wf.workflow_id m (initState wf) =
      some (traceAt registry wf m).1 := by
  unfold runLoop
  have hx : (tick registry wf.workflow_id)^[m] (initState wf, true) =
      ((traceAt registry wf m).1, false) := by
    show traceAt registry wf m = _
    rw [← h]
  rw [hx]

/-- C3: if step `B` depends (directly or transitively) on step `A` and `A`
ever reaches FAILED during a run, then `B` never leaves WAITING at any point
of the run, and the scheduling loop exits with the workflow FAILED — a status
the finalization step preserves. -/
theorem failed_dependency_blocks_dependents
    (registry : Registry) (wf : Workflow) (A B : String)
    (hnodup : (wf.steps.map fun st => st.step_id).Nodup)
    (hinit : ∀ st ∈ wf.steps, StepInit st)
    (hchain : DepChain wf.steps B A)
    (hfail : ∃ k, stepStatusAt registry wf k A = some StepStatus.failed) :
    (∀ n, stepStatusAt registry wf n B = some StepStatus.waiting) ∧
    ∃ m s, runLoop registry wf.workflow_id m (initState wf) = some s ∧
      s.wstatus = WorkflowStatus.failed ∧
      (finalizeWf s).wstatus = WorkflowStatus.failed ∧
      statusOf s B = some StepStatus.waiting := by
  obtain ⟨k, hk⟩ := hfail
  have hk' : statusOf (traceAt registry wf k).1 A = some StepStatus.failed := hk
  have hAnc := trace_never_completed registry wf hnodup hinit hk'
  have hBw := trace_chain_blocked registry wf hnodup hinit hchain hAnc
  refine ⟨hBw, ?_⟩
  have hfin : ∀ s : SchedState, s.wstatus = WorkflowStatus.failed →
      (finalizeWf s).wstatus = WorkflowStatus.failed := by
    intro s hws
    show (if s.wstatus = WorkflowStatus.failed then s.wstatus else .completed) =
      WorkflowStatus.failed
    rw [if_pos hws]
    exact hws
  cases hflag : (traceAt registry wf k).2 with
  | true =>
    obtain ⟨j, _, hj2, hj3⟩ := trace_exits_failed registry wf hnodup hinit hBw
      (countWaiting (traceAt registry wf k).1) k rfl hflag hk'
    exact ⟨k + j, (traceAt registry wf (k + j)).1,
      runLoop_of_flag_false registry wf hj2, hj3,
      hfin _ hj3, hBw (k + j)⟩
  | false =>
    obtain ⟨m, _, hm2, hm3⟩ := trace_flag_origin registry wf hflag
    have hws := trace_exit_failed_shape registry wf hnodup hinit (hBw m) hm2 hm3
    exact ⟨m + 1, (traceAt registry wf (m + 1)).1,
      runLoop_of_flag_false registry wf hm3, hws, hfin _ hws, hBw (m + 1)⟩

theorem failed_dependency_witness :
    (∀ n, stepStatusAt regC3 wfC3 n "b" = some StepStatus.waiting) ∧
    ∃ m s, runLoop regC3 wfC3.workflow_id m (initState wfC3) = some s ∧
      s.wstatus = WorkflowStatus.failed ∧
      (finalizeWf s).wstatus = WorkflowStatus.failed ∧
      statusOf s "b" = some StepStatus.waiting :=
  failed_dependency_blocks_dependents regC3 wfC3 "a" "b" (by decide)
    (by
      intro st hst
      rcases List.mem_cons.mp hst with rfl | hst'
      · exact ⟨rfl, rfl, rfl⟩
      · rcases List.mem_cons.mp hst' with rfl | h0
        · exact ⟨rfl, rfl, rfl⟩
        · cases h0)
    (DepChain.base ⟨stepB3, List.mem_cons_of_mem _ (List.mem_singleton_self _),
      rfl, List.mem_singleton_self _⟩)
    ⟨1, by decide⟩

/-- C9: in the state the scheduling loop exits with, every step that was
launched started no earlier than the completion stamp of each of its
dependencies — a step never starts before all its dependencies are
COMPLETED. -/
theorem topological_soundness (registry : Registry) (wf : Workflow) (fuel : Nat)
    (hnodup : (wf.steps.map fun st => st.step_id).Nodup)
    (hinit : ∀ st ∈ wf.steps, StepInit st) :
    ∀ id tS, runStartedAt registry wf fuel id = some tS →
    ∀ d ∈ runDepsOf registry wf fuel id,
    ∃ tC, runCompletedAt registry wf fuel d = some tC ∧ tC ≤ tS := by
  intro id tS hstart d hd
  unfold runStartedAt at hstart
  unfold runDepsOf at hd
  unfold runCompletedAt
  cases hr : runLoop registry wf.workflow_id fuel (initState wf) with
  | none =>
    rw [hr] at hstart
    simp at hstart
  | some s =>
    rw [hr] at hstart hd
    replace hstart : startedOf s id = some tS := hstart
    replace hd : d ∈ depsOf s id := hd
    have hs0 : (traceAt registry wf fuel).1 = s := by
      unfold runLoop at hr
      cases hx : (tick registry wf.workflow_id)^[fuel] (initState wf, true) with
      | mk s' b =>
        rw [hx] at hr
        cases b with
        | true => cases hr
        | false =>
          have hss : s' = s := Option.some.inj hr
          show ((tick registry wf.workflow_id)^[fuel] (initState wf, true)).1 = s
          rw [hx, hss]
    have hsinv : SInv s := by
      have hh := sinv_trace registry wf hnodup hinit fuel
      rw [hs0] at hh
      exact hh
    unfold startedOf at hstart
    cases hf : findStep s id with
    | none =>
      rw [hf] at hstart
      cases hstart
    | some st =>
      rw [hf] at hstart
      replace hstart : st.started_at = some tS := hstart
      have hmem : st ∈ s.steps :=
        List.mem_of_find?_eq_some (show s.steps.find? _ = some st from hf)
      have hdd : d ∈ st.dependencies := by
        unfold depsOf at hd
        rw [hf] at hd
        exact hd
      obtain ⟨dst, hdst, hdid, tC, htc, hle⟩ :=
        hsinv.dep_ts st hmem tS hstart d hdd
      have hfd : findStep s d = some dst := by
        show s.steps.find? (fun st => decide (st.step_id = d)) = some dst
        rw [← hdid]
        exact find?_eq_of_mem_nodup hsinv.nodup hdst
      show ∃ tC, (findStep s d).bind (fun st => st.completed_at) = some tC ∧ tC ≤ tS
      rw [hfd]
      exact ⟨tC, htc, hle⟩

theorem topological_soundness_witness :
    ∃ tC, runCompletedAt regC1 wfC9 3 "a" = some tC ∧ tC ≤ 3 :=
  topological_soundness regC1 wfC9 3 (by decide)
    (by
      intro st hst
      rcases List.mem_cons.mp hst with rfl | hst'
      · exact ⟨rfl, rfl, rfl⟩
      · rcases List.mem_cons.mp hst' with rfl | h0
        · exact ⟨rfl, rfl, rfl⟩
        · cases h0)
    "b" 3 (by decide) "a" (by decide)

end MailMind

